import Mathlib

/-!
# jail-builder

A shallow embedding of `build.go` and `zfs.go` of briandowns/jail-builder.

The Go code is effectful: it touches the filesystem, runs external commands and
downloads files.  Every method of `Builder` is embedded as a function from a
`World` to a new `World` and the returned `error` (`none` is Go's `nil`).

* The filesystem is a map from paths to file contents plus a set of directories.
* Whatever the program cannot decide by itself (does `os.Create` succeed, what
  does a command return, what does the server answer) is asked of an oracle.
  The oracles are fields of `OS` and `Wrapper`; they see the whole current
  `World`, so that the same call may answer differently at different times.
  Theorems quantify over all oracles.
* `World.log` records the external commands that were run, the archives that
  were extracted and the download tasks that were launched, in order.
-/

namespace JailBuilder

/-- A Go `error` value; `Option Error` is the type of a returned `error`,
`none` standing for `nil`. -/
abbrev Error := String

/-! ## Data model -/

/-- The type `Opts` of build.go. -/
structure Opts where
  BaseDir : String
  Release : String
  Dataset : String
deriving DecidableEq, Repr

/-- The variable `basePackages` of build.go. -/
def basePackages : List String := ["base.txz", "lib32.txz", "ports.txz"]

/-- The constant `rcConf` of build.go. -/
def rcConf : String := "/etc/rc.conf"

/-- The result of `fmt.Sprintf(sysDownloadURL, release, pkg)`: the constant
`sysDownloadURL` of build.go with its two `%s` verbs filled in. -/
def sysDownloadURL (release pkg : String) : String :=
  "http://ftp.freebsd.org/pub/FreeBSD/releases/amd64/amd64/" ++ release ++ "/" ++ pkg

/-- The filesystem: regular files with their content, and directories. -/
structure FS where
  files : String → Option String
  dirs : String → Bool

/-- What the log records. -/
inductive Event where
  /-- An external command (program name followed by its arguments) was issued,
  and this is the error that came back (`none` when it succeeded). -/
  | exec (argv : List String) (err : Option Error)
  /-- The archive `src` was extracted into `dst`, with the given result. -/
  | untar (src dst : String) (err : Option Error)
  /-- A task was handed to the errgroup (`g.Go`): it downloads `url` into `file`. -/
  | go (url file : String)
deriving DecidableEq, Repr

/-- The state of the machine the program runs on. -/
structure World where
  fs : FS
  log : List Event

/-- The interface `Wrapper` (its declaration is not part of build.go or zfs.go):
both methods run a command to completion; the command may change the
filesystem.  The output bytes are only printed and are not modelled. -/
structure Wrapper where
  CombinedOutput : World → String → List String → FS × Option Error
  Output : World → String → List String → FS × Option Error

/-- The operating system and the libraries, as far as their answers are not
determined by the filesystem of the model. -/
structure OS where
  /-- The error of `os.Mkdir(path, os.ModePerm)`. -/
  Mkdir : World → String → Option Error
  /-- The error of `os.Create(path)`. -/
  Create : World → String → Option Error
  /-- The error of `os.Open(path)` for a path that exists. -/
  Open : World → String → Option Error
  /-- The error of reading the file at the path to its end. -/
  Read : World → String → Option Error
  /-- The error of writing the data to the (writable) file at the path. -/
  Write : World → String → String → Option Error
  /-- The error of `cmd.Start()`. -/
  Start : World → List String → Option Error
  /-- The effect and error of `cmd.Wait()`. -/
  Wait : World → List String → FS × Option Error
  /-- The error of `http.NewRequest(http.MethodGet, url, nil)`. -/
  NewRequest : String → Option Error
  /-- The answer of `hc.Do(req)`: the response body or an error. -/
  Do : World → String → Except Error String
  /-- The effect and error of `archiver.TarXZ.Open(src, dst)`. -/
  TarXZOpen : World → String → String → FS × Option Error
  /-- The Go scheduler: whether the task that downloads the URL into the file,
  handed to the errgroup earlier and not run yet, runs now. -/
  RunsNow : World → String → String → Bool

/-- The type `Builder` of build.go. -/
structure Builder where
  wrapper : Wrapper
  opts : Opts

/-! ## Options -/

/-- The method `Opts.Validate` of build.go. -/
def Opts.Validate (o : Opts) : Option Error :=
  if o.BaseDir = "" then some "missing base directory"
  else if o.Release = "" then some "missing release"
  else if o.Dataset = "" then some "missing dataset"
  else none

/-- The function `New` of build.go.  The value `&Wrap{}` it stores is declared
outside build.go and zfs.go and is taken as the parameter `wrap`. -/
def New (wrap : Wrapper) (opts : Opts) : Except Error Builder :=
  match opts.Validate with
  | some err => .error err
  | none => .ok { wrapper := wrap, opts := opts }

/-! ## Files -/

/-- Modelled from the spec: `utils.Exists` of the imported package
github.com/briandowns/sky-island/utils, which reports whether the path exists
(as a file or as a directory). -/
def utilsExists (w : World) (path : String) : Bool :=
  (w.fs.files path).isSome || w.fs.dirs path

/-- The filesystem with the content of one file replaced. -/
def FS.put (fs : FS) (path content : String) : FS :=
  { fs with files := fun q => if q = path then some content else fs.files q }

/-- The call `os.Mkdir(path, os.ModePerm)`. -/
def osMkdir (os : OS) (w : World) (path : String) : World × Option Error :=
  match os.Mkdir w path with
  | some err => (w, some err)
  | none =>
    ({ w with fs := { w.fs with dirs := fun q => if q = path then true else w.fs.dirs q } }, none)

/-- The call `os.Create(path)`: on success the file exists and is empty (an
existing file is truncated) and is open for writing at offset 0. -/
def osCreate (os : OS) (w : World) (path : String) : World × Option Error :=
  match os.Create w path with
  | some err => (w, some err)
  | none => ({ w with fs := w.fs.put path "" }, none)

/-- The call `os.Open(path)`: the file is opened for reading only.  It fails
when nothing exists at the path. -/
def osOpen (os : OS) (w : World) (path : String) : Option Error :=
  if utilsExists w path then os.Open w path
  else some ("open " ++ path ++ ": no such file or directory")

/-- The call `f.Write(data)` on a file obtained from `os.Create(path)` and only
written sequentially since: on success the data is added at the end of the
file.  A failed write is modelled as leaving the file as it was. -/
def fileWrite (os : OS) (w : World) (path data : String) : World × Option Error :=
  match os.Write w path data with
  | some err => (w, some err)
  | none => ({ w with fs := w.fs.put path ((w.fs.files path).getD "" ++ data) }, none)

/-- The call `f.Write(data)` on a file obtained from `os.Open(path)`: the
descriptor is read-only, the write fails and nothing is written. -/
def readOnlyWrite (w : World) (path : String) (_data : String) : World × Option Error :=
  (w, some ("write " ++ path ++ ": bad file descriptor"))

/-- The call `io.Copy(out, body)` of a response body into a file obtained from
`os.Create(out)`.  Nothing is written for an empty body. -/
def ioCopyData (os : OS) (w : World) (out data : String) : World × Option Error :=
  if data = "" then (w, none) else fileWrite os w out data

/-- The call `io.Copy(out, in)` from a file obtained from `os.Open(inp)` into
a file obtained from `os.Create(out)`: the source is read to its end and
written to the destination. -/
def ioCopy (os : OS) (w : World) (out inp : String) : World × Option Error :=
  match w.fs.files inp with
  | none => (w, some ("read " ++ inp ++ ": is a directory"))
  | some data =>
    match os.Read w inp with
    | some err => (w, some err)
    | none => ioCopyData os w out data

/-! ## zfs.go -/

/-- The call `b.wrapper.CombinedOutput(name, args...)`, recorded in the log. -/
def runCombinedOutput (b : Builder) (w : World) (name : String) (args : List String) :
    World × Option Error :=
  let r := b.wrapper.CombinedOutput w name args
  ({ fs := r.1, log := w.log ++ [Event.exec (name :: args) r.2] }, r.2)

/-- The call `b.wrapper.Output(name, args...)`, recorded in the log. -/
def runOutput (b : Builder) (w : World) (name : String) (args : List String) :
    World × Option Error :=
  let r := b.wrapper.Output w name args
  ({ fs := r.1, log := w.log ++ [Event.exec (name :: args) r.2] }, r.2)

/-- The method `Builder.CreateZFSDataset` of zfs.go. -/
def Builder.CreateZFSDataset (b : Builder) (w : World) : World × Option Error :=
  let dataset := b.opts.Dataset ++ "/jails/releases/" ++ b.opts.Release
  runCombinedOutput b w "zfs" ["create", "-p", dataset]

/-- The method `Builder.CreateZFSSnapshot` of zfs.go. -/
def Builder.CreateZFSSnapshot (b : Builder) (w : World) : World × Option Error :=
  runOutput b w "zfs" ["snapshot", b.opts.Dataset ++ "/jails/releases/" ++ b.opts.Release ++ "@p1"]

/-- The method `Builder.CloneBaseToJail` of zfs.go. -/
def Builder.CloneBaseToJail (b : Builder) (jname : String) (w : World) : World × Option Error :=
  let base := "/" ++ b.opts.Dataset ++ "/jails/releases/" ++ b.opts.Release ++ "@p1"
  let dataset := "/zroot/jails/" ++ jname
  runOutput b w "zfs" ["clone", base, dataset]

/-- The method `Builder.CreateBaseJailDataset` of zfs.go. -/
def Builder.CreateBaseJailDataset (b : Builder) (w : World) : World × Option Error :=
  runOutput b w "zfs" ["create", "-o", "mountpoint=" ++ b.opts.BaseDir, "zroot", ""]

/-! ## build.go -/

/-- The function handed to `g.Go` in `DownloadBaseSystem`, for the URL
`fmt.Sprintf(sysDownloadURL, b.opts.Release, pkg)` and the file `pkgFile`. -/
def downloadTask (os : OS) (url pkgFile : String) (w : World) : World × Option Error :=
  match osCreate os w pkgFile with
  | (w1, some err) => (w1, some err)
  | (w1, none) =>
    match os.NewRequest url with
    | some err => (w1, some err)
    | none =>
      match os.Do w1 url with
      | .error err => (w1, some err)
      | .ok body => ioCopyData os w1 pkgFile body

/-- The errgroup `g` of `DownloadBaseSystem`: the tasks handed to `g.Go` that
have not run yet, each as its URL and its file, and the first error a task
has returned so far. -/
structure Group where
  pending : List (String × String)
  err : Option Error

/-- Run the given tasks, each to its end, one after the other; the errgroup
keeps the first error. -/
def runTasks (os : OS) : List (String × String) → World → Option Error → World × Option Error
  | [], w, first => (w, first)
  | t :: ts, w, first =>
    let r := downloadTask os t.1 t.2 w
    runTasks os ts r.1 (match first with | some err => some err | none => r.2)

/-- A point at which launched tasks may run: those the scheduler picks run
now, the others stay pending. -/
def schedule (os : OS) (w : World) (g : Group) : World × Group :=
  let r := runTasks os (g.pending.filter fun t => os.RunsNow w t.1 t.2) w g.err
  (r.1, { pending := g.pending.filter fun t => !os.RunsNow w t.1 t.2, err := r.2 })

/-- The call `g.Wait()`: the tasks that are left run, in an order the
scheduler picks (at each of the `n` rounds the tasks it picks run), and the
first error a task has returned, in the order the tasks have run, comes back. -/
def waitAll (os : OS) : Nat → World → Group → World × Option Error
  | 0, w, g => runTasks os g.pending w g.err
  | n + 1, w, g => waitAll os n (schedule os w g).1 (schedule os w g).2

/-- The loop of `DownloadBaseSystem` over the packages still to visit, followed
by `g.Wait()`.  The tasks run concurrently with the loop: before each
existence test the scheduler may run tasks launched earlier, and `g.Wait()`
runs those that are left and returns the first error. -/
def downloadLoop (os : OS) (b : Builder) : List String → World → Group → World × Option Error
  | [], w, g => waitAll os g.pending.length w g
  | p :: ps, w, g =>
    let s := schedule os w g
    let file := "/tmp/" ++ b.opts.Release ++ "/" ++ p
    if utilsExists s.1 file then downloadLoop os b ps s.1 s.2
    else
      let url := sysDownloadURL b.opts.Release p
      downloadLoop os b ps { s.1 with log := s.1.log ++ [Event.go url file] }
        { s.2 with pending := s.2.pending ++ [(url, file)] }

/-- The method `Builder.DownloadBaseSystem` of build.go. -/
def Builder.DownloadBaseSystem (os : OS) (b : Builder) (w : World) : World × Option Error :=
  if utilsExists w ("/tmp/" ++ b.opts.Release) then
    downloadLoop os b basePackages w { pending := [], err := none }
  else
    match osMkdir os w ("/tmp/" ++ b.opts.Release) with
    | (w1, some err) => (w1, some err)
    | (w1, none) => downloadLoop os b basePackages w1 { pending := [], err := none }

/-- The loop of `ExtractBasePkgs` over the packages still to extract. -/
def extractLoop (os : OS) (b : Builder) (fullPath : String) :
    List String → World → World × Option Error
  | [], w => (w, none)
  | p :: ps, w =>
    let src := "/tmp/" ++ b.opts.Release ++ "/" ++ p
    let r := os.TarXZOpen w src fullPath
    let w1 : World := { fs := r.1, log := w.log ++ [Event.untar src fullPath r.2] }
    match r.2 with
    | some err => (w1, some err)
    | none => extractLoop os b fullPath ps w1

/-- The method `Builder.ExtractBasePkgs` of build.go. -/
def Builder.ExtractBasePkgs (os : OS) (b : Builder) (w : World) : World × Option Error :=
  let fullPath := b.opts.BaseDir ++ "/releases/" ++ b.opts.Release
  extractLoop os b fullPath basePackages w

/-- The argument list of `exec.Command` in `UpdateBaseJail`, the program name
first. -/
def Builder.UpdateBaseJailCmd (b : Builder) : List String :=
  let path := b.opts.BaseDir ++ "/releases/" ++ b.opts.Release
  ["env", "UNAME_r=" ++ b.opts.Release,
   "freebsd-update",
   "-b",
   "--not-running-from-cron",
   path,
   "fetch",
   "install"]

/-- The method `Builder.UpdateBaseJail` of build.go.  The local variable `env`
is computed and never given to the command; it has no effect. -/
def Builder.UpdateBaseJail (os : OS) (b : Builder) (w : World) : World × Option Error :=
  let cmd := b.UpdateBaseJailCmd
  match os.Start w cmd with
  | some err => ({ w with log := w.log ++ [Event.exec cmd (some err)] }, some err)
  | none =>
    let r := os.Wait w cmd
    ({ fs := r.1, log := w.log ++ [Event.exec cmd r.2] }, r.2)

/-- The method `Builder.BaseJailSysConf` of build.go. -/
def Builder.BaseJailSysConf (_b : Builder) (w : World) : World × Option Error :=
  (w, none)

/-- The method `Builder.SetLocaltime` of build.go. -/
def Builder.SetLocaltime (os : OS) (b : Builder) (w : World) : World × Option Error :=
  match osOpen os w "/etc/localtime" with
  | some err => (w, some err)
  | none =>
    match osCreate os w (b.opts.BaseDir ++ "/releases/" ++ b.opts.Release ++ "/etc/localtime") with
    | (w1, some err) => (w1, some err)
    | (w1, none) =>
      ioCopy os w1 (b.opts.BaseDir ++ "/releases/" ++ b.opts.Release ++ "/etc/localtime")
        "/etc/localtime"

/-- The loop of `SetResolvConf` over the nameservers: the result of each
`out.Write` is dropped. -/
def writeNameservers (os : OS) (out : String) : List String → World → World
  | [], w => w
  | i :: rest, w =>
    writeNameservers os out rest (fileWrite os w out ("nameserver " ++ i ++ "\n")).1

/-- The method `Builder.SetResolvConf` of build.go.  A Go slice is `nil`
(`none`) or a list that may be empty (`some []` is `[]string{}`). -/
def Builder.SetResolvConf (os : OS) (b : Builder) (nameservers : Option (List String))
    (w : World) : World × Option Error :=
  match nameservers with
  | some ns =>
    match osCreate os w (b.opts.BaseDir ++ "/releases/" ++ b.opts.Release ++ "/etc/resolv.conf") with
    | (w1, some err) => (w1, some err)
    | (w1, none) =>
      (writeNameservers os (b.opts.BaseDir ++ "/releases/" ++ b.opts.Release ++ "/etc/resolv.conf")
        ns w1, none)
  | none =>
    match osOpen os w "/etc/resolv.conf" with
    | some err => (w, some err)
    | none =>
      match osCreate os w
          (b.opts.BaseDir ++ "/releases/" ++ b.opts.Release ++ "/etc/resolv.conf") with
      | (w1, some err) => (w1, some err)
      | (w1, none) =>
        ioCopy os w1 (b.opts.BaseDir ++ "/releases/" ++ b.opts.Release ++ "/etc/resolv.conf")
          "/etc/resolv.conf"

/-- The method `Builder.ConfigureJailHostname` of build.go. -/
def Builder.ConfigureJailHostname (os : OS) (b : Builder) (name : String) (w : World) :
    World × Option Error :=
  match osOpen os w (b.opts.BaseDir ++ "/" ++ name ++ "/etc/rc.conf") with
  | some err => (w, some err)
  | none =>
    match readOnlyWrite w (b.opts.BaseDir ++ "/" ++ name ++ "/etc/rc.conf") ("hostname=" ++ name) with
    | (w1, some err) => (w1, some err)
    | (w1, none) => (w1, none)

/-- The method `Builder.SetBaseJailConf` of build.go. -/
def Builder.SetBaseJailConf (os : OS) (b : Builder) (w : World) : World × Option Error :=
  match b.SetResolvConf os (some []) w with
  | (w1, some err) => (w1, some err)
  | (w1, none) => (w1, none)

/-- The method `Builder.CreateJail` of build.go;
`fmt.Sprintf` of the format hostname="%s" puts the name between double quotes. -/
def Builder.CreateJail (os : OS) (b : Builder) (name : String) (w : World) :
    World × Option Error :=
  match b.CloneBaseToJail name w with
  | (w1, some err) => (w1, some err)
  | (w1, none) =>
    match osCreate os w1 (b.opts.BaseDir ++ "/" ++ name ++ rcConf) with
    | (w2, some err) => (w2, some err)
    | (w2, none) =>
      match fileWrite os w2 (b.opts.BaseDir ++ "/" ++ name ++ rcConf)
          ("hostname=\"" ++ name ++ "\"") with
      | (w3, some err) => (w3, some err)
      | (w3, none) => (w3, none)

/-- The method `Builder.Initialize` of build.go. -/
def Builder.Initialize (os : OS) (b : Builder) (w : World) : World × Option Error :=
  match b.CreateZFSDataset w with
  | (w1, some err) => (w1, some err)
  | (w1, none) =>
  match b.DownloadBaseSystem os w1 with
  | (w2, some err) => (w2, some err)
  | (w2, none) =>
  match b.ExtractBasePkgs os w2 with
  | (w3, some err) => (w3, some err)
  | (w3, none) =>
  match b.UpdateBaseJail os w3 with
  | (w4, some err) => (w4, some err)
  | (w4, none) =>
  match b.SetBaseJailConf os w4 with
  | (w5, some err) => (w5, some err)
  | (w5, none) =>
  match b.CreateZFSSnapshot w5 with
  | (w6, some err) => (w6, some err)
  | (w6, none) => b.CreateJail os "base" w6

/-! ## Reference descriptions and sample inputs -/

/-- The seven steps of `Initialize` in the order the specification lists them. -/
def Builder.steps (os : OS) (b : Builder) : List (World → World × Option Error) :=
  [b.CreateZFSDataset, b.DownloadBaseSystem os, b.ExtractBasePkgs os, b.UpdateBaseJail os,
   b.SetBaseJailConf os, b.CreateZFSSnapshot, b.CreateJail os "base"]

/-- Run a list of steps in order and stop at the first one that returns an
error: the fail-fast pipeline of the specification. -/
def runSteps : List (World → World × Option Error) → World → World × Option Error
  | [], w => (w, none)
  | s :: rest, w =>
    match s w with
    | (w1, some err) => (w1, some err)
    | (w1, none) => runSteps rest w1

/-- Run a list of steps in order without looking at their errors: the world
after each of them has run once. -/
def runAll : List (World → World × Option Error) → World → World
  | [], w => w
  | s :: rest, w => runAll rest (s w).1

/-- What step number `k` (counted from 0) returns when it is run in the world
the steps before it have left. -/
def stepResult (steps : List (World → World × Option Error)) (w : World) (k : Nat) :
    World × Option Error :=
  match steps.get? k with
  | some s => s (runAll (steps.take k) w)
  | none => (runAll steps w, none)

/-- Whether the event is a run of the program zfs. -/
def isZfs : Event → Bool
  | .exec ("zfs" :: _) _ => true
  | _ => false

/-- The world `w1` comes from `w` by adding events to the log, and `zs` are
the runs of zfs among the added events, in order. -/
def AddsZfs (w w1 : World) (zs : List Event) : Prop :=
  ∃ evs, w1.log = w.log ++ evs ∧ evs.filter isZfs = zs

/-- The resolver file the specification describes for a list of nameservers:
one line "nameserver ip" for each entry, in the order of the list. -/
def nameserverLines : List String → String
  | [] => ""
  | ip :: rest => "nameserver " ++ ip ++ "\n" ++ nameserverLines rest

/-- The file holds a body that the server has answered to a request for the
URL: the download of the URL into the file has been carried out. -/
def Fetched (os : OS) (url file : String) (w : World) : Prop :=
  ∃ w1 body, os.Do w1 url = .ok body ∧ w.fs.files file = some body

/-- The lines of a text: the pieces between its newline characters. -/
def splitLines : List Char → List (List Char)
  | [] => [[]]
  | c :: cs =>
    if c = '\n' then [] :: splitLines cs
    else
      match splitLines cs with
      | [] => [[c]]
      | l :: ls => (c :: l) :: ls

/-- A value without the double quotes around it, when it has them. -/
def unquote (v : List Char) : List Char :=
  match v with
  | [] => v
  | c :: rest =>
    if c = '"' then
      match rest.reverse with
      | [] => v
      | d :: r => if d = '"' then r.reverse else v
    else v

/-- The hostname a line of rc.conf declares: a hostname declaration is a line
that begins with hostname= and its value is the rest of the line, without the
double quotes around it. -/
def declaredHostname (line : List Char) : Option String :=
  if line.take 9 = "hostname=".data then some (String.mk (unquote (line.drop 9))) else none

/-- The hostnames of the hostname declarations of an rc.conf file, in the order
of its lines. -/
def hostnameDeclarations (content : String) : List String :=
  (splitLines content.data).filterMap declaredHostname

/-- A wrapper whose commands all succeed and leave the filesystem alone. -/
def okWrapper : Wrapper :=
  { CombinedOutput := fun w _ _ => (w.fs, none)
    Output := fun w _ _ => (w.fs, none) }

/-- An operating system on which every call succeeds; the server answers
every request with the body "txz". -/
def okOS : OS :=
  { Mkdir := fun _ _ => none
    Create := fun _ _ => none
    Open := fun _ _ => none
    Read := fun _ _ => none
    Write := fun _ _ _ => none
    Start := fun _ _ => none
    Wait := fun w _ => (w.fs, none)
    NewRequest := fun _ => none
    Do := fun _ _ => .ok "txz"
    TarXZOpen := fun w _ _ => (w.fs, none)
    RunsNow := fun _ _ _ => true }

/-- As `okOS`, but every write to a file fails (a full disk). -/
def fullDiskOS : OS :=
  { okOS with Write := fun _ _ _ => some "no space left on device" }

/-- As `okOS`, but the patch command cannot be started. -/
def patchFailOS : OS :=
  { okOS with Start := fun _ _ => some "exec: env: executable file not found" }

/-- Sample options. -/
def sampleOpts : Opts :=
  { BaseDir := "/usr/jails", Release := "11.0-RELEASE", Dataset := "zroot" }

/-- A builder for the sample options. -/
def sampleBuilder : Builder := { wrapper := okWrapper, opts := sampleOpts }

/-- A host whose only files are /etc/resolv.conf and /etc/localtime. -/
def hostWorld : World :=
  { fs :=
      { files := fun p =>
          if p = "/etc/resolv.conf" then some "nameserver 10.0.0.1\n"
          else if p = "/etc/localtime" then some "TZif2"
          else none
        dirs := fun _ => false }
    log := [] }

/-- A host with the files of `hostWorld` and the file
/usr/jails/web1/etc/rc.conf with the given content. -/
def jailWorld (content : String) : World :=
  { fs := hostWorld.fs.put "/usr/jails/web1/etc/rc.conf" content
    log := [] }

/-! ## Facts about strings and files -/

theorem String.append_left_cancel_iff (a b c : String) : a ++ b = a ++ c ↔ b = c := by
  constructor
  · intro h
    have hd := congrArg String.data h
    simp only [String.data_append, List.append_cancel_left_eq] at hd
    exact String.ext hd
  · intro h
    rw [h]

theorem put_files_same (fs : FS) (p c : String) : (fs.put p c).files p = some c := by
  simp [FS.put]

theorem put_files_other (fs : FS) (p q c : String) (h : q ≠ p) :
    (fs.put p c).files q = fs.files q := by
  simp [FS.put, h]

/-! ## Options -/

/-- C1: `Opts.Validate` returns nil exactly when the three fields are all
non-empty, and otherwise the error of the first empty field in the order
BaseDir, Release, Dataset, whatever the later fields hold; `New` returns that
same error, and a builder holding the options when there is none. -/
theorem Validate_first_missing (o : Opts) :
    (o.Validate = none ↔ (o.BaseDir ≠ "" ∧ o.Release ≠ "" ∧ o.Dataset ≠ "")) ∧
    (o.BaseDir = "" → o.Validate = some "missing base directory") ∧
    (o.BaseDir ≠ "" → o.Release = "" → o.Validate = some "missing release") ∧
    (o.BaseDir ≠ "" → o.Release ≠ "" → o.Dataset = "" → o.Validate = some "missing dataset") ∧
    (∀ wrap, New wrap o =
      match o.Validate with
      | some err => .error err
      | none => .ok { wrapper := wrap, opts := o }) := by
  refine ⟨?_, ?_, ?_, ?_, ?_⟩
  · unfold Opts.Validate
    by_cases h1 : o.BaseDir = "" <;> by_cases h2 : o.Release = "" <;>
      by_cases h3 : o.Dataset = "" <;> simp [h1, h2, h3]
  · intro h1
    simp [Opts.Validate, h1]
  · intro h1 h2
    simp [Opts.Validate, h1, h2]
  · intro h1 h2 h3
    simp [Opts.Validate, h1, h2, h3]
  · intro wrap
    rfl

/-- Witness for C1: with a base directory but neither release nor dataset,
the error names the release. -/
theorem Validate_first_missing_witness :
    Opts.Validate { BaseDir := "/usr/jails", Release := "", Dataset := "" }
      = some "missing release" :=
  (Validate_first_missing { BaseDir := "/usr/jails", Release := "", Dataset := "" }).2.2.1
    (by decide) rfl

/-! ## Storage commands -/

/-- The three storage commands each run one command and record it. -/
theorem zfs_commands_log (b : Builder) (jname : String) (w : World) :
    (b.CreateZFSDataset w).1.log = w.log ++
      [Event.exec ["zfs", "create", "-p", b.opts.Dataset ++ "/jails/releases/" ++ b.opts.Release]
        (b.CreateZFSDataset w).2] ∧
    (b.CreateZFSSnapshot w).1.log = w.log ++
      [Event.exec ["zfs", "snapshot",
        b.opts.Dataset ++ "/jails/releases/" ++ b.opts.Release ++ "@p1"]
        (b.CreateZFSSnapshot w).2] ∧
    (b.CloneBaseToJail jname w).1.log = w.log ++
      [Event.exec ["zfs", "clone",
        "/" ++ b.opts.Dataset ++ "/jails/releases/" ++ b.opts.Release ++ "@p1",
        "/zroot/jails/" ++ jname]
        (b.CloneBaseToJail jname w).2] :=
  ⟨rfl, rfl, rfl⟩

/-- C6 (as the code behaves): the destination `CloneBaseToJail` passes to
zfs clone is "/zroot/jails/" followed by the jail name, but its source is NOT
the string `CreateZFSSnapshot` passes to zfs snapshot: it is that string
(the dataset name of `CreateZFSDataset` followed by "@p1") with a "/" put in
front, and so differs from it for every value of the options. -/
theorem CloneBaseToJail_source_has_leading_slash (b : Builder) (jname : String) (w : World) :
    ∃ dataset snap src,
      (b.CreateZFSDataset w).1.log = w.log ++
        [Event.exec ["zfs", "create", "-p", dataset] (b.CreateZFSDataset w).2] ∧
      (b.CreateZFSSnapshot w).1.log = w.log ++
        [Event.exec ["zfs", "snapshot", snap] (b.CreateZFSSnapshot w).2] ∧
      (b.CloneBaseToJail jname w).1.log = w.log ++
        [Event.exec ["zfs", "clone", src, "/zroot/jails/" ++ jname]
          (b.CloneBaseToJail jname w).2] ∧
      dataset = b.opts.Dataset ++ "/jails/releases/" ++ b.opts.Release ∧
      snap = dataset ++ "@p1" ∧
      src = "/" ++ snap ∧
      src ≠ snap := by
  refine ⟨b.opts.Dataset ++ "/jails/releases/" ++ b.opts.Release,
    b.opts.Dataset ++ "/jails/releases/" ++ b.opts.Release ++ "@p1",
    "/" ++ (b.opts.Dataset ++ "/jails/releases/" ++ b.opts.Release ++ "@p1"),
    rfl, rfl, ?_, rfl, rfl, rfl, ?_⟩
  · simp [Builder.CloneBaseToJail, runOutput, String.append_assoc]
  · intro h
    have hl := congrArg String.length h
    simp only [String.length_append] at hl
    have h1 : "/".length = 1 := by decide
    omega

/-! ## Patching -/

/-- C8 (as the code behaves): `UpdateBaseJail` runs one command, `env` with
the override UNAME_r=Release in front of `freebsd-update`, ending in the
actions fetch and install; but the argument that follows the option "-b" is
"--not-running-from-cron", not the directory BaseDir/releases/Release, which
comes one place later. -/
theorem UpdateBaseJail_b_not_followed_by_path (os : OS) (b : Builder) (w : World) :
    (b.UpdateBaseJail os w).1.log =
      w.log ++ [Event.exec b.UpdateBaseJailCmd (b.UpdateBaseJail os w).2] ∧
    b.UpdateBaseJailCmd =
      ["env", "UNAME_r=" ++ b.opts.Release, "freebsd-update", "-b", "--not-running-from-cron",
       b.opts.BaseDir ++ "/releases/" ++ b.opts.Release, "fetch", "install"] ∧
    b.UpdateBaseJailCmd.get? 3 = some "-b" ∧
    b.UpdateBaseJailCmd.get? 4 = some "--not-running-from-cron" ∧
    b.UpdateBaseJailCmd.get? 4 ≠ some (b.opts.BaseDir ++ "/releases/" ++ b.opts.Release) := by
  refine ⟨?_, rfl, rfl, rfl, ?_⟩
  · unfold Builder.UpdateBaseJail
    cases h : os.Start w b.UpdateBaseJailCmd <;> simp [h]
  · intro h
    have hs : "--not-running-from-cron" = b.opts.BaseDir ++ "/releases/" ++ b.opts.Release := by
      simpa [Builder.UpdateBaseJailCmd] using h
    have hmem : '/' ∈ (b.opts.BaseDir ++ "/releases/" ++ b.opts.Release).data := by
      simp [String.data_append]
    rw [← hs] at hmem
    revert hmem
    decide

/-! ## Jail hostname -/

/-- C10 (as the code behaves): `ConfigureJailHostname` never returns nil and
never changes anything: either the configuration file cannot be opened, or it
is opened, read-only, and the write to it fails. -/
theorem ConfigureJailHostname_always_fails (os : OS) (b : Builder) (name : String) (w : World) :
    (∃ err, b.ConfigureJailHostname os name w = (w, some err)) ∧
    (osOpen os w (b.opts.BaseDir ++ "/" ++ name ++ "/etc/rc.conf") = none →
      b.ConfigureJailHostname os name w =
        (w, some ("write " ++ (b.opts.BaseDir ++ "/" ++ name ++ "/etc/rc.conf") ++
          ": bad file descriptor"))) := by
  unfold Builder.ConfigureJailHostname
  cases h : osOpen os w (b.opts.BaseDir ++ "/" ++ name ++ "/etc/rc.conf") with
  | some err => exact ⟨⟨err, rfl⟩, fun h0 => by cases h0⟩
  | none => exact ⟨⟨_, rfl⟩, fun _ => rfl⟩

/-- Witness for C10: the jail web1 has an (empty) rc.conf; the call returns
the error of the write and the file is still empty. -/
theorem ConfigureJailHostname_always_fails_witness :
    (sampleBuilder.ConfigureJailHostname okOS "web1" (jailWorld "")).2 =
      some "write /usr/jails/web1/etc/rc.conf: bad file descriptor" ∧
    (sampleBuilder.ConfigureJailHostname okOS "web1" (jailWorld "")).1.fs.files
      "/usr/jails/web1/etc/rc.conf" = some "" := by
  have h := (ConfigureJailHostname_always_fails okOS sampleBuilder "web1" (jailWorld "")).2
    (by decide)
  rw [h]
  exact ⟨by decide, by decide⟩

theorem splitLines_of_no_newline (cs : List Char) (h : ∀ c ∈ cs, c ≠ '\n') :
    splitLines cs = [cs] := by
  induction cs with
  | nil => rfl
  | cons c cs ih =>
    have hc : c ≠ '\n' := h c (List.mem_cons_self _ _)
    simp only [splitLines, hc, if_false, ih fun d hd => h d (List.mem_cons_of_mem _ hd)]

/-- The file that `CreateJail` writes declares one hostname, the name, when
the name has no double quote and no newline in it. -/
theorem hostnameDeclarations_single (name : String)
    (h : ∀ c ∈ name.data, c ≠ '"' ∧ c ≠ '\n') :
    hostnameDeclarations ("hostname=\"" ++ name ++ "\"") = [name] := by
  have hdata : ("hostname=\"" ++ name ++ "\"").data =
      'h' :: 'o' :: 's' :: 't' :: 'n' :: 'a' :: 'm' :: 'e' :: '=' :: '"' :: (name.data ++ ['"']) := by
    simp only [String.data_append]
    rfl
  have hno : ∀ c ∈ 'h' :: 'o' :: 's' :: 't' :: 'n' :: 'a' :: 'm' :: 'e' :: '=' :: '"' ::
      (name.data ++ ['"']), c ≠ '\n' := by
    intro c hc
    simp only [List.mem_cons, List.mem_append, List.mem_singleton, List.not_mem_nil,
      or_false] at hc
    rcases hc with rfl | rfl | rfl | rfl | rfl | rfl | rfl | rfl | rfl | rfl | hc | rfl
    all_goals first | decide | exact (h c hc).2
  unfold hostnameDeclarations
  rw [hdata, splitLines_of_no_newline _ hno]
  have hdecl : declaredHostname
      ('h' :: 'o' :: 's' :: 't' :: 'n' :: 'a' :: 'm' :: 'e' :: '=' :: '"' ::
        (name.data ++ ['"'])) = some name := by
    have htake : List.take 9 ('h' :: 'o' :: 's' :: 't' :: 'n' :: 'a' :: 'm' :: 'e' :: '=' ::
        '"' :: (name.data ++ ['"'])) = "hostname=".data := rfl
    have hdrop : List.drop 9 ('h' :: 'o' :: 's' :: 't' :: 'n' :: 'a' :: 'm' :: 'e' :: '=' ::
        '"' :: (name.data ++ ['"'])) = '"' :: (name.data ++ ['"']) := rfl
    simp only [declaredHostname, htake, hdrop, if_true, unquote, List.reverse_append,
      List.reverse_cons, List.reverse_nil, List.nil_append, List.singleton_append,
      List.reverse_reverse]
  simp only [List.filterMap_cons, hdecl, List.filterMap_nil]

/-- C4 (as amended): when `CreateJail` returns nil, the clone command for that
name was run and succeeded, and afterwards the file BaseDir/name/etc/rc.conf
holds hostname="name" and nothing else, whatever it held before; for a name
without double quote and newline that is exactly one hostname declaration,
equal to the name.  When the clone command fails, `CreateJail` returns its
error and the file is neither created nor written (the world is the one the
clone command left). -/
theorem CreateJail_hostname (os : OS) (b : Builder) (name : String) (w : World) :
    ((b.CreateJail os name w).2 = none →
      (b.CloneBaseToJail name w).2 = none ∧
      (b.CreateJail os name w).1.fs.files (b.opts.BaseDir ++ "/" ++ name ++ "/etc/rc.conf")
        = some ("hostname=\"" ++ name ++ "\"") ∧
      (b.CreateJail os name w).1.log = w.log ++
        [Event.exec ["zfs", "clone",
          "/" ++ b.opts.Dataset ++ "/jails/releases/" ++ b.opts.Release ++ "@p1",
          "/zroot/jails/" ++ name] none]) ∧
    (∀ err, (b.CloneBaseToJail name w).2 = some err →
      b.CreateJail os name w = ((b.CloneBaseToJail name w).1, some err)) ∧
    ((∀ c ∈ name.data, c ≠ '"' ∧ c ≠ '\n') → (b.CreateJail os name w).2 = none →
      ∃ content,
        (b.CreateJail os name w).1.fs.files (b.opts.BaseDir ++ "/" ++ name ++ "/etc/rc.conf")
          = some content ∧
        hostnameDeclarations content = [name]) := by
  have hlog := (zfs_commands_log b name w).2.2
  have hmain : (b.CreateJail os name w).2 = none →
      (b.CloneBaseToJail name w).2 = none ∧
      (b.CreateJail os name w).1.fs.files (b.opts.BaseDir ++ "/" ++ name ++ "/etc/rc.conf")
        = some ("hostname=\"" ++ name ++ "\"") ∧
      (b.CreateJail os name w).1.log = w.log ++
        [Event.exec ["zfs", "clone",
          "/" ++ b.opts.Dataset ++ "/jails/releases/" ++ b.opts.Release ++ "@p1",
          "/zroot/jails/" ++ name] none] := by
    unfold Builder.CreateJail
    rcases hc : b.CloneBaseToJail name w with ⟨w1, _ | e1⟩
    · rw [hc] at hlog
      simp only [rcConf, osCreate, fileWrite]
      cases hcr : os.Create w1 (b.opts.BaseDir ++ "/" ++ name ++ "/etc/rc.conf") with
      | some e2 => intro h; cases h
      | none =>
        simp only []
        cases hwr : os.Write
            { w1 with fs := (w1.fs.put (b.opts.BaseDir ++ "/" ++ name ++ "/etc/rc.conf") "") }
            (b.opts.BaseDir ++ "/" ++ name ++ "/etc/rc.conf")
            ("hostname=\"" ++ name ++ "\"") with
        | some e3 => intro h; cases h
        | none =>
          intro _
          refine ⟨trivial, ?_, ?_⟩
          · simp [put_files_same]
          · simpa using hlog
    · intro h
      simp at h
  refine ⟨hmain, ?_, ?_⟩
  · intro err h
    unfold Builder.CreateJail
    rcases hc : b.CloneBaseToJail name w with ⟨w1, _ | e1⟩
    · rw [hc] at h
      cases h
    · rw [hc] at h
      simp only [Option.some.injEq] at h
      subst h
      rfl
  · intro hname hnil
    exact ⟨_, (hmain hnil).2.1, hostnameDeclarations_single name hname⟩

/-- Witness for C4: with every call succeeding, the jail web1 gets the file
/usr/jails/web1/etc/rc.conf with its hostname, whatever the file held, and
the file declares the one hostname web1. -/
theorem CreateJail_hostname_witness :
    (sampleBuilder.CreateJail okOS "web1" (jailWorld "hostname=\"old\"\n")).1.fs.files
      "/usr/jails/web1/etc/rc.conf" = some "hostname=\"web1\"" ∧
    (∃ content,
      (sampleBuilder.CreateJail okOS "web1" (jailWorld "hostname=\"old\"\n")).1.fs.files
        "/usr/jails/web1/etc/rc.conf" = some content ∧
      hostnameDeclarations content = ["web1"]) ∧
    hostnameDeclarations "hostname=\"web1\"" = ["web1"] :=
  ⟨((CreateJail_hostname okOS sampleBuilder "web1" (jailWorld "hostname=\"old\"\n")).1
      (by decide)).2.1,
    (CreateJail_hostname okOS sampleBuilder "web1" (jailWorld "hostname=\"old\"\n")).2.2
      (by decide) (by decide),
    by decide⟩

/-- Counterexample for C4 as first stated: for the name made of x, a double
quote, a newline and hostname="y, `CreateJail` returns nil and the file it has
written holds two hostname declarations, x and y, neither of them the name. -/
theorem CreateJail_name_with_quote_two_declarations :
    (sampleBuilder.CreateJail okOS "x\"\nhostname=\"y" hostWorld).2 = none ∧
    (sampleBuilder.CreateJail okOS "x\"\nhostname=\"y" hostWorld).1.fs.files
      "/usr/jails/x\"\nhostname=\"y/etc/rc.conf" = some "hostname=\"x\"\nhostname=\"y\"" ∧
    hostnameDeclarations "hostname=\"x\"\nhostname=\"y\"" = ["x", "y"] ∧
    hostnameDeclarations "hostname=\"x\"\nhostname=\"y\"" ≠ ["x\"\nhostname=\"y"] := by
  decide

/-! ## Name resolution -/

theorem resolv_path_ne_host (b : Builder) :
    b.opts.BaseDir ++ "/releases/" ++ b.opts.Release ++ "/etc/resolv.conf" ≠ "/etc/resolv.conf" := by
  intro h
  have hl := congrArg String.length h
  simp only [String.length_append] at hl
  have h1 : "/releases/".length = 10 := by decide
  have h2 : "/etc/resolv.conf".length = 16 := by decide
  omega

theorem localtime_path_ne_resolv (b : Builder) :
    b.opts.BaseDir ++ "/releases/" ++ b.opts.Release ++ "/etc/localtime" ≠
      b.opts.BaseDir ++ "/releases/" ++ b.opts.Release ++ "/etc/resolv.conf" := by
  intro h
  rw [String.append_left_cancel_iff] at h
  revert h
  decide

theorem writeNameservers_log (os : OS) (out : String) (ns : List String) (w : World) :
    (writeNameservers os out ns w).log = w.log := by
  induction ns generalizing w with
  | nil => rfl
  | cons i rest ih =>
    simp only [writeNameservers, fileWrite]
    cases os.Write w out ("nameserver " ++ i ++ "\n") <;> simp [ih]

theorem writeNameservers_other (os : OS) (out q : String) (hq : q ≠ out) (ns : List String)
    (w : World) :
    (writeNameservers os out ns w).fs.files q = w.fs.files q ∧
    (writeNameservers os out ns w).fs.dirs = w.fs.dirs := by
  induction ns generalizing w with
  | nil => exact ⟨rfl, rfl⟩
  | cons i rest ih =>
    simp only [writeNameservers, fileWrite]
    cases os.Write w out ("nameserver " ++ i ++ "\n") with
    | some err => exact ih w
    | none =>
      refine ⟨?_, ?_⟩
      · rw [(ih _).1]
        exact put_files_other _ _ _ _ hq
      · rw [(ih _).2]
        rfl

theorem writeNameservers_all_fail (os : OS) (out : String)
    (hfail : ∀ w d, os.Write w out d ≠ none) (ns : List String) (w : World) :
    writeNameservers os out ns w = w := by
  induction ns generalizing w with
  | nil => rfl
  | cons i rest ih =>
    simp only [writeNameservers, fileWrite]
    cases h : os.Write w out ("nameserver " ++ i ++ "\n") with
    | some err => exact ih w
    | none => exact absurd h (hfail _ _)

theorem writeNameservers_all_succeed (os : OS) (out : String)
    (hok : ∀ w d, os.Write w out d = none) (ns : List String) (w : World) (c : String)
    (hc : w.fs.files out = some c) :
    (writeNameservers os out ns w).fs.files out = some (c ++ nameserverLines ns) := by
  induction ns generalizing w c with
  | nil => simpa [writeNameservers, nameserverLines] using hc
  | cons i rest ih =>
    simp only [writeNameservers, fileWrite, hok]
    rw [ih _ (c ++ ("nameserver " ++ i ++ "\n")) (by simp [put_files_same, hc])]
    simp [nameserverLines, String.append_assoc]

/-- With a list of nameservers (empty or not), `SetResolvConf` creates the
resolver file and runs the loop; it returns nil as soon as the file could be
created. -/
theorem SetResolvConf_some (os : OS) (b : Builder) (ns : List String) (w : World) :
    b.SetResolvConf os (some ns) w =
      match os.Create w (b.opts.BaseDir ++ "/releases/" ++ b.opts.Release ++ "/etc/resolv.conf") with
      | some err => (w, some err)
      | none =>
        (writeNameservers os (b.opts.BaseDir ++ "/releases/" ++ b.opts.Release ++ "/etc/resolv.conf")
          ns { w with fs := (w.fs.put
            (b.opts.BaseDir ++ "/releases/" ++ b.opts.Release ++ "/etc/resolv.conf") "") }, none) := by
  simp only [Builder.SetResolvConf, osCreate]
  cases os.Create w (b.opts.BaseDir ++ "/releases/" ++ b.opts.Release ++ "/etc/resolv.conf") <;> rfl

/-- When every write succeeds, `SetResolvConf` with a list of nameservers
leaves exactly the lines of the list in the resolver file, and does not touch
the resolver file of the host. -/
theorem SetResolvConf_lines_when_writes_succeed (os : OS) (b : Builder) (ns : List String)
    (w : World)
    (hok : ∀ w1 d, os.Write w1
      (b.opts.BaseDir ++ "/releases/" ++ b.opts.Release ++ "/etc/resolv.conf") d = none)
    (hnil : (b.SetResolvConf os (some ns) w).2 = none) :
    (b.SetResolvConf os (some ns) w).1.fs.files
      (b.opts.BaseDir ++ "/releases/" ++ b.opts.Release ++ "/etc/resolv.conf")
      = some (nameserverLines ns) ∧
    (b.SetResolvConf os (some ns) w).1.fs.files "/etc/resolv.conf"
      = w.fs.files "/etc/resolv.conf" := by
  rw [SetResolvConf_some] at hnil ⊢
  cases hcr : os.Create w
      (b.opts.BaseDir ++ "/releases/" ++ b.opts.Release ++ "/etc/resolv.conf") with
  | some err => rw [hcr] at hnil; cases hnil
  | none =>
    simp only []
    constructor
    · rw [writeNameservers_all_succeed os _ hok ns _ "" (put_files_same _ _ _)]
      simp
    · rw [(writeNameservers_other os _ _ (resolv_path_ne_host b).symm ns _).1]
      exact put_files_other _ _ _ _ (resolv_path_ne_host b).symm

/-- The lines for the nameservers 8.8.8.8 and 1.1.1.1. -/
theorem nameserverLines_example :
    nameserverLines ["8.8.8.8", "1.1.1.1"] = "nameserver 8.8.8.8\nnameserver 1.1.1.1\n" := by
  decide

/-- C2 (as the code behaves): `SetResolvConf` with a list of nameservers drops
the result of every write.  When every write to the resolver file succeeds
and the call returns nil, the file holds exactly the lines of the list, in
order, with nothing of its earlier content, and the resolver file of the host
is not touched.  But when the file can be created and the writes to it fail,
the call still returns nil, and the file is left empty: it does not hold the
nameserver lines. -/
theorem SetResolvConf_drops_write_errors (os : OS) (b : Builder) (ns : List String) (w : World) :
    ((∀ w1 d, os.Write w1
        (b.opts.BaseDir ++ "/releases/" ++ b.opts.Release ++ "/etc/resolv.conf") d = none) →
      (b.SetResolvConf os (some ns) w).2 = none →
      (b.SetResolvConf os (some ns) w).1.fs.files
        (b.opts.BaseDir ++ "/releases/" ++ b.opts.Release ++ "/etc/resolv.conf")
        = some (nameserverLines ns) ∧
      (b.SetResolvConf os (some ns) w).1.fs.files "/etc/resolv.conf"
        = w.fs.files "/etc/resolv.conf") ∧
    (os.Create w
        (b.opts.BaseDir ++ "/releases/" ++ b.opts.Release ++ "/etc/resolv.conf") = none →
      (∀ w1 d, os.Write w1
        (b.opts.BaseDir ++ "/releases/" ++ b.opts.Release ++ "/etc/resolv.conf") d ≠ none) →
      (b.SetResolvConf os (some ns) w).2 = none ∧
      (b.SetResolvConf os (some ns) w).1.fs.files
        (b.opts.BaseDir ++ "/releases/" ++ b.opts.Release ++ "/etc/resolv.conf") = some "") := by
  refine ⟨SetResolvConf_lines_when_writes_succeed os b ns w, fun hcreate hfail => ?_⟩
  rw [SetResolvConf_some, hcreate]
  simp only [writeNameservers_all_fail os _ hfail]
  exact ⟨trivial, put_files_same _ _ _⟩

/-- Witness for C2: with the nameservers 8.8.8.8 and 1.1.1.1, when every call
succeeds the resolver file holds the two lines; on a full disk the call
returns nil as well and leaves an empty resolver file. -/
theorem SetResolvConf_drops_write_errors_witness :
    (sampleBuilder.SetResolvConf okOS (some ["8.8.8.8", "1.1.1.1"]) hostWorld).1.fs.files
      "/usr/jails/releases/11.0-RELEASE/etc/resolv.conf"
      = some "nameserver 8.8.8.8\nnameserver 1.1.1.1\n" ∧
    (sampleBuilder.SetResolvConf fullDiskOS (some ["8.8.8.8", "1.1.1.1"]) hostWorld).2 = none ∧
    (sampleBuilder.SetResolvConf fullDiskOS (some ["8.8.8.8", "1.1.1.1"]) hostWorld).1.fs.files
      "/usr/jails/releases/11.0-RELEASE/etc/resolv.conf" = some "" :=
  ⟨(((SetResolvConf_drops_write_errors okOS sampleBuilder ["8.8.8.8", "1.1.1.1"] hostWorld).1
      (fun _ _ => rfl) (by decide)).1).trans (by decide),
    (SetResolvConf_drops_write_errors fullDiskOS sampleBuilder ["8.8.8.8", "1.1.1.1"] hostWorld).2
      rfl (fun _ _ h => (by cases h))⟩

/-- C3 (as the code behaves): with the nil list, a call that returns nil has
copied the resolver file of the host; with the empty list `[]string{}`, which
is not nil, a call that returns nil has left the resolver file empty and has
not read the file of the host. -/
theorem SetResolvConf_nil_copies_empty_does_not (os : OS) (b : Builder) (w : World) :
    ((b.SetResolvConf os none w).2 = none →
      (b.SetResolvConf os none w).1.fs.files
        (b.opts.BaseDir ++ "/releases/" ++ b.opts.Release ++ "/etc/resolv.conf")
        = w.fs.files "/etc/resolv.conf" ∧
      (b.SetResolvConf os none w).1.fs.files "/etc/resolv.conf" = w.fs.files "/etc/resolv.conf") ∧
    ((b.SetResolvConf os (some []) w).2 = none →
      (b.SetResolvConf os (some []) w).1.fs.files
        (b.opts.BaseDir ++ "/releases/" ++ b.opts.Release ++ "/etc/resolv.conf") = some "" ∧
      (b.SetResolvConf os (some []) w).1.fs.files "/etc/resolv.conf"
        = w.fs.files "/etc/resolv.conf") := by
  have hne := resolv_path_ne_host b
  constructor
  · simp only [Builder.SetResolvConf, osCreate, ioCopy, ioCopyData, fileWrite]
    cases hop : osOpen os w "/etc/resolv.conf" with
    | some err => intro h; cases h
    | none =>
      simp only []
      cases hcr : os.Create w
          (b.opts.BaseDir ++ "/releases/" ++ b.opts.Release ++ "/etc/resolv.conf") with
      | some err => intro h; cases h
      | none =>
        simp only [put_files_other _ _ _ _ hne.symm]
        cases hhost : w.fs.files "/etc/resolv.conf" with
        | none => intro h; cases h
        | some data =>
          simp only []
          cases hrd : os.Read { w with fs := (w.fs.put
              (b.opts.BaseDir ++ "/releases/" ++ b.opts.Release ++ "/etc/resolv.conf") "") }
              "/etc/resolv.conf" with
          | some err => intro h; cases h
          | none =>
            simp only []
            by_cases hd : data = ""
            · simp [hd, put_files_same, put_files_other _ _ _ _ hne.symm, hhost]
            · simp only [hd, if_false]
              cases hwr : os.Write { w with fs := (w.fs.put
                  (b.opts.BaseDir ++ "/releases/" ++ b.opts.Release ++ "/etc/resolv.conf") "") }
                  (b.opts.BaseDir ++ "/releases/" ++ b.opts.Release ++ "/etc/resolv.conf") data with
              | some err => intro h; cases h
              | none =>
                intro _
                simp [put_files_same, put_files_other _ _ _ _ hne.symm, hhost]
  · rw [SetResolvConf_some]
    cases hcr : os.Create w
        (b.opts.BaseDir ++ "/releases/" ++ b.opts.Release ++ "/etc/resolv.conf") with
    | some err => intro h; cases h
    | none =>
      intro _
      exact ⟨put_files_same _ _ _, put_files_other _ _ _ _ hne.symm⟩

/-- Witness for C3: called with the empty list on the sample host, the call
returns nil and the resolver file of the base tree is empty, while the one of
the host holds a nameserver. -/
theorem SetResolvConf_nil_copies_empty_does_not_witness :
    (sampleBuilder.SetResolvConf okOS (some []) hostWorld).1.fs.files
      "/usr/jails/releases/11.0-RELEASE/etc/resolv.conf" = some "" ∧
    hostWorld.fs.files "/etc/resolv.conf" = some "nameserver 10.0.0.1\n" :=
  ⟨((SetResolvConf_nil_copies_empty_does_not okOS sampleBuilder hostWorld).2 (by decide)).1,
    by decide⟩

/-- C9 (as the code behaves): when `SetBaseJailConf` returns nil, the resolver
file of the base tree is empty, whatever the one of the host holds, and the
localtime file of the base tree is what it was before the call: nothing is
copied from the host. -/
theorem SetBaseJailConf_copies_nothing (os : OS) (b : Builder) (w : World)
    (hnil : (b.SetBaseJailConf os w).2 = none) :
    (b.SetBaseJailConf os w).1.fs.files
      (b.opts.BaseDir ++ "/releases/" ++ b.opts.Release ++ "/etc/resolv.conf") = some "" ∧
    (b.SetBaseJailConf os w).1.fs.files
      (b.opts.BaseDir ++ "/releases/" ++ b.opts.Release ++ "/etc/localtime")
      = w.fs.files (b.opts.BaseDir ++ "/releases/" ++ b.opts.Release ++ "/etc/localtime") ∧
    (b.SetBaseJailConf os w).1.log = w.log := by
  have hne := localtime_path_ne_resolv b
  simp only [Builder.SetBaseJailConf, SetResolvConf_some, writeNameservers] at hnil ⊢
  cases hcr : os.Create w
      (b.opts.BaseDir ++ "/releases/" ++ b.opts.Release ++ "/etc/resolv.conf") with
  | some err => rw [hcr] at hnil; cases hnil
  | none => exact ⟨put_files_same _ _ _, put_files_other _ _ _ _ hne, rfl⟩

/-- Witness for C9: on the sample host the call returns nil; afterwards the
resolver file of the base tree is empty and there is no localtime file in the
base tree, while the host has both files with content. -/
theorem SetBaseJailConf_copies_nothing_witness :
    ((sampleBuilder.SetBaseJailConf okOS hostWorld).1.fs.files
        "/usr/jails/releases/11.0-RELEASE/etc/resolv.conf" = some "" ∧
      (sampleBuilder.SetBaseJailConf okOS hostWorld).1.fs.files
        "/usr/jails/releases/11.0-RELEASE/etc/localtime" = none) ∧
    hostWorld.fs.files "/etc/resolv.conf" = some "nameserver 10.0.0.1\n" ∧
    hostWorld.fs.files "/etc/localtime" = some "TZif2" := by
  have h := SetBaseJailConf_copies_nothing okOS sampleBuilder hostWorld (by decide)
  exact ⟨⟨h.1, h.2.1.trans (by decide)⟩, by decide, by decide⟩

/-! ## Download of the base system -/

theorem cache_path_inj (r p q : String) :
    "/tmp/" ++ r ++ "/" ++ p = "/tmp/" ++ r ++ "/" ++ q ↔ p = q :=
  String.append_left_cancel_iff _ _ _

theorem cache_path_ne_dir (r p : String) : "/tmp/" ++ r ++ "/" ++ p ≠ "/tmp/" ++ r := by
  intro h
  have hl := congrArg String.length h
  simp only [String.length_append] at hl
  have h1 : "/".length = 1 := by decide
  omega

/-- A download task records nothing in the log, creates no directory and
touches no file but its own. -/
theorem downloadTask_frame (os : OS) (url file : String) (w : World) :
    (downloadTask os url file w).1.log = w.log ∧
    (downloadTask os url file w).1.fs.dirs = w.fs.dirs ∧
    ∀ q, q ≠ file → (downloadTask os url file w).1.fs.files q = w.fs.files q := by
  simp only [downloadTask, osCreate, ioCopyData, fileWrite]
  cases os.Create w file with
  | some err => exact ⟨rfl, rfl, fun _ _ => rfl⟩
  | none =>
    simp only []
    cases os.NewRequest url with
    | some err => exact ⟨rfl, rfl, fun q hq => put_files_other _ _ _ _ hq⟩
    | none =>
      simp only []
      cases os.Do { w with fs := (w.fs.put file "") } url with
      | error err => exact ⟨rfl, rfl, fun q hq => put_files_other _ _ _ _ hq⟩
      | ok body =>
        simp only []
        by_cases hb : body = ""
        · simp only [hb, if_true, true_and]
          exact ⟨rfl, fun q hq => put_files_other _ _ _ _ hq⟩
        · simp only [hb, if_false]
          cases os.Write { w with fs := (w.fs.put file "") } file body with
          | some err => exact ⟨rfl, rfl, fun q hq => put_files_other _ _ _ _ hq⟩
          | none =>
            refine ⟨by simp, by simp [FS.put], fun q hq => ?_⟩
            simp only [put_files_other _ _ _ _ hq]

theorem downloadTask_exists (os : OS) (url file q : String) (hq : q ≠ file) (w : World) :
    utilsExists (downloadTask os url file w).1 q = utilsExists w q := by
  have h := downloadTask_frame os url file w
  simp only [utilsExists, h.2.1, h.2.2 q hq]

/-- Running tasks records nothing in the log, creates no directory and
touches no file but those of the tasks. -/
theorem runTasks_frame (os : OS) (ts : List (String × String)) (w : World)
    (first : Option Error) :
    (runTasks os ts w first).1.log = w.log ∧
    (runTasks os ts w first).1.fs.dirs = w.fs.dirs ∧
    ∀ q, (∀ t ∈ ts, q ≠ t.2) → (runTasks os ts w first).1.fs.files q = w.fs.files q := by
  induction ts generalizing w first with
  | nil => exact ⟨rfl, rfl, fun _ _ => rfl⟩
  | cons t ts ih =>
    simp only [runTasks]
    have hfr := downloadTask_frame os t.1 t.2 w
    refine ⟨?_, ?_, fun q hq => ?_⟩
    · rw [(ih _ _).1, hfr.1]
    · rw [(ih _ _).2.1, hfr.2.1]
    · rw [(ih _ _).2.2 q (fun u hu => hq u (List.mem_cons_of_mem _ hu)),
        hfr.2.2 q (hq t (List.mem_cons_self _ _))]

theorem schedule_frame (os : OS) (w : World) (g : Group) :
    (schedule os w g).1.log = w.log ∧
    (schedule os w g).1.fs.dirs = w.fs.dirs ∧
    (∀ q, (∀ t ∈ g.pending, q ≠ t.2) →
      (schedule os w g).1.fs.files q = w.fs.files q) ∧
    ∀ t ∈ (schedule os w g).2.pending, t ∈ g.pending := by
  have hfr := runTasks_frame os (g.pending.filter fun t => os.RunsNow w t.1 t.2) w g.err
  exact ⟨hfr.1, hfr.2.1, fun q hq => hfr.2.2 q (fun t ht => hq t (List.mem_of_mem_filter ht)),
    fun t ht => List.mem_of_mem_filter ht⟩

theorem schedule_exists (os : OS) (w : World) (g : Group) (q : String)
    (hq : ∀ t ∈ g.pending, q ≠ t.2) :
    utilsExists (schedule os w g).1 q = utilsExists w q := by
  have hs := schedule_frame os w g
  simp only [utilsExists, hs.2.1, hs.2.2.1 q hq]

/-- Waiting for the tasks records nothing in the log, creates no directory and
touches no file but those of the pending tasks. -/
theorem waitAll_frame (os : OS) (n : Nat) (w : World) (g : Group) :
    (waitAll os n w g).1.log = w.log ∧
    (waitAll os n w g).1.fs.dirs = w.fs.dirs ∧
    ∀ q, (∀ t ∈ g.pending, q ≠ t.2) → (waitAll os n w g).1.fs.files q = w.fs.files q := by
  induction n generalizing w g with
  | zero => exact runTasks_frame os g.pending w g.err
  | succ n ih =>
    have hs := schedule_frame os w g
    have hi := ih (schedule os w g).1 (schedule os w g).2
    simp only [waitAll]
    refine ⟨hi.1.trans hs.1, hi.2.1.trans hs.2.1, fun q hq => ?_⟩
    rw [hi.2.2 q (fun t ht => hq t (hs.2.2.2 t ht)), hs.2.2.1 q hq]

/-- The tasks the loop launches are those of the packages whose cache file is
missing when the loop starts, in the order of the packages, whenever the
tasks launched earlier run. -/
theorem downloadLoop_log (os : OS) (b : Builder) (ps : List String) (hnd : ps.Nodup)
    (w : World) (g : Group)
    (hpend : ∀ t ∈ g.pending, ∀ q ∈ ps, "/tmp/" ++ b.opts.Release ++ "/" ++ q ≠ t.2) :
    (downloadLoop os b ps w g).1.log = w.log ++
      (ps.filter fun p => !utilsExists w ("/tmp/" ++ b.opts.Release ++ "/" ++ p)).map
        fun p => Event.go (sysDownloadURL b.opts.Release p) ("/tmp/" ++ b.opts.Release ++ "/" ++ p) := by
  induction ps generalizing w g with
  | nil => simp [downloadLoop, (waitAll_frame os g.pending.length w g).1]
  | cons p ps ih =>
    have hp : p ∉ ps := (List.nodup_cons.mp hnd).1
    have hps : ps.Nodup := (List.nodup_cons.mp hnd).2
    have hs := schedule_frame os w g
    have hsame : ∀ q ∈ p :: ps,
        utilsExists (schedule os w g).1 ("/tmp/" ++ b.opts.Release ++ "/" ++ q) =
          utilsExists w ("/tmp/" ++ b.opts.Release ++ "/" ++ q) :=
      fun q hq => schedule_exists os w g _ (fun t ht => hpend t ht q hq)
    have hfilter :
        (ps.filter fun q =>
          !utilsExists (schedule os w g).1 ("/tmp/" ++ b.opts.Release ++ "/" ++ q)) =
        (ps.filter fun q => !utilsExists w ("/tmp/" ++ b.opts.Release ++ "/" ++ q)) := by
      apply List.filter_congr
      intro q hq
      rw [hsame q (List.mem_cons_of_mem _ hq)]
    have hpend1 : ∀ t ∈ (schedule os w g).2.pending, ∀ q ∈ ps,
        "/tmp/" ++ b.opts.Release ++ "/" ++ q ≠ t.2 :=
      fun t ht q hq => hpend t (hs.2.2.2 t ht) q (List.mem_cons_of_mem _ hq)
    simp only [downloadLoop]
    rw [hsame p (List.mem_cons_self _ _)]
    by_cases hex : utilsExists w ("/tmp/" ++ b.opts.Release ++ "/" ++ p) = true
    · simp only [hex, if_true]
      rw [ih hps _ _ hpend1, hfilter, hs.1]
      simp [List.filter_cons, hex]
    · have hex0 : utilsExists w ("/tmp/" ++ b.opts.Release ++ "/" ++ p) = false := by
        simpa using hex
      simp only [hex0, Bool.false_eq_true, if_false]
      rw [ih hps]
      · have hfilter1 : ∀ l : List Event,
            (ps.filter fun q => !utilsExists { fs := (schedule os w g).1.fs, log := l }
              ("/tmp/" ++ b.opts.Release ++ "/" ++ q)) =
            (ps.filter fun q => !utilsExists w ("/tmp/" ++ b.opts.Release ++ "/" ++ q)) := by
          intro l
          rw [← hfilter]
          rfl
        simp only [hs.1, hfilter1]
        simp [List.filter_cons, hex0]
      · intro t ht q hq
        rcases List.mem_append.mp ht with h | h
        · exact hpend1 t h q hq
        · simp only [List.mem_singleton] at h
          subst h
          intro heq
          rw [cache_path_inj] at heq
          exact hp (heq ▸ hq)

/-- When the cache file of every package exists, the loop and `g.Wait()` do
nothing. -/
theorem downloadLoop_all_cached (os : OS) (b : Builder) (ps : List String) (w : World)
    (hall : ∀ p ∈ ps, utilsExists w ("/tmp/" ++ b.opts.Release ++ "/" ++ p) = true) :
    downloadLoop os b ps w { pending := [], err := none } = (w, none) := by
  induction ps with
  | nil => rfl
  | cons p ps ih =>
    have hs : schedule os w { pending := [], err := none } = (w, { pending := [], err := none }) :=
      rfl
    simp only [downloadLoop, hs, hall p (List.mem_cons_self _ _), if_true]
    exact ih fun q hq => hall q (List.mem_cons_of_mem _ hq)

theorem Fetched_of_files_eq (os : OS) (url file : String) (w w1 : World)
    (h : w1.fs.files file = w.fs.files file) (hf : Fetched os url file w) :
    Fetched os url file w1 := by
  obtain ⟨w0, body, hd, hb⟩ := hf
  exact ⟨w0, body, hd, h.trans hb⟩

/-- A download task that returns nil has put into its file the body the server
answered to the request for its URL. -/
theorem downloadTask_fetched (os : OS) (url file : String) (w : World)
    (hnil : (downloadTask os url file w).2 = none) :
    Fetched os url file (downloadTask os url file w).1 := by
  revert hnil
  simp only [downloadTask, osCreate, ioCopyData, fileWrite]
  cases os.Create w file with
  | some err => intro h; cases h
  | none =>
    simp only []
    cases os.NewRequest url with
    | some err => intro h; cases h
    | none =>
      simp only []
      cases hdo : os.Do { w with fs := (w.fs.put file "") } url with
      | error err => intro h; cases h
      | ok body =>
        simp only []
        by_cases hb : body = ""
        · simp only [hb, if_true]
          intro _
          exact ⟨_, "", hb ▸ hdo, put_files_same _ _ _⟩
        · simp only [hb, if_false]
          cases os.Write { w with fs := (w.fs.put file "") } file body with
          | some err => intro h; cases h
          | none =>
            intro _
            refine ⟨_, body, hdo, ?_⟩
            simp [put_files_same]

/-- When the errgroup holds no error after tasks with different files have
run, it held none before and each of the tasks has fetched its URL into its
file. -/
theorem runTasks_fetched (os : OS) (ts : List (String × String))
    (hnd : (ts.map Prod.snd).Nodup) (w : World) (first : Option Error)
    (hnil : (runTasks os ts w first).2 = none) :
    first = none ∧ ∀ t ∈ ts, Fetched os t.1 t.2 (runTasks os ts w first).1 := by
  induction ts generalizing w first with
  | nil => exact ⟨hnil, fun t ht => by cases ht⟩
  | cons t ts ih =>
    simp only [List.map_cons, List.nodup_cons] at hnd
    simp only [runTasks] at hnil ⊢
    obtain ⟨hfirst, hall⟩ := ih hnd.2 _ _ hnil
    have hf0 : first = none := by
      cases first with
      | none => rfl
      | some e => cases hfirst
    subst hf0
    simp only [] at hfirst
    refine ⟨rfl, fun u hu => ?_⟩
    rcases List.mem_cons.mp hu with h | h
    · subst h
      apply Fetched_of_files_eq os u.1 u.2 (downloadTask os u.1 u.2 w).1
      · apply (runTasks_frame os ts _ _).2.2
        intro v hv heq
        exact hnd.1 (heq ▸ List.mem_map_of_mem Prod.snd hv)
      · exact downloadTask_fetched os u.1 u.2 w hfirst
    · exact hall u h

/-- At a scheduling point, when the errgroup holds no error afterwards, it held
none before, and every pending task either is still pending or has fetched
its URL into its file, which is the file of no task still pending. -/
theorem schedule_fetched (os : OS) (w : World) (g : Group)
    (hnd : (g.pending.map Prod.snd).Nodup) :
    ((schedule os w g).2.pending.map Prod.snd).Nodup ∧
    ((schedule os w g).2.err = none → g.err = none ∧
      ∀ t ∈ g.pending, t ∈ (schedule os w g).2.pending ∨
        (Fetched os t.1 t.2 (schedule os w g).1 ∧
          ∀ u ∈ (schedule os w g).2.pending, t.2 ≠ u.2)) := by
  have hsub : ∀ f : String × String → Bool, ((g.pending.filter f).map Prod.snd).Nodup :=
    fun f => List.Nodup.sublist (List.Sublist.map _ (List.filter_sublist _)) hnd
  refine ⟨hsub _, fun herr => ?_⟩
  obtain ⟨hg, hall⟩ := runTasks_fetched os _ (hsub fun t => os.RunsNow w t.1 t.2) w g.err herr
  refine ⟨hg, fun t ht => ?_⟩
  by_cases hr : os.RunsNow w t.1 t.2 = true
  · right
    refine ⟨hall t (List.mem_filter.mpr ⟨ht, hr⟩), fun u hu heq => ?_⟩
    have hu1 : u ∈ g.pending ∧ (!os.RunsNow w u.1 u.2) = true := List.mem_filter.mp hu
    have htu : t = u := List.inj_on_of_nodup_map hnd ht hu1.1 heq
    rw [← htu, hr] at hu1
    exact absurd hu1.2 (by decide)
  · left
    exact List.mem_filter.mpr ⟨ht, by simpa using hr⟩

/-- When `g.Wait()` returns nil, every pending task has fetched its URL into
its file. -/
theorem waitAll_fetched (os : OS) (n : Nat) (w : World) (g : Group)
    (hnd : (g.pending.map Prod.snd).Nodup) (hnil : (waitAll os n w g).2 = none) :
    g.err = none ∧ ∀ t ∈ g.pending, Fetched os t.1 t.2 (waitAll os n w g).1 := by
  induction n generalizing w g with
  | zero => exact runTasks_fetched os g.pending hnd w g.err hnil
  | succ n ih =>
    obtain ⟨hnd1, hsp⟩ := schedule_fetched os w g hnd
    simp only [waitAll] at hnil ⊢
    obtain ⟨herr, hall⟩ := ih _ _ hnd1 hnil
    obtain ⟨hg, hpend⟩ := hsp herr
    refine ⟨hg, fun t ht => ?_⟩
    rcases hpend t ht with h | ⟨hf, hne⟩
    · exact hall t h
    · exact Fetched_of_files_eq os t.1 t.2 _ _ ((waitAll_frame os n _ _).2.2 t.2 hne) hf

/-- The loop and `g.Wait()` touch no file but those of the pending tasks and
the cache files of the packages whose cache file is missing. -/
theorem downloadLoop_frame (os : OS) (b : Builder) (ps : List String) (hnd : ps.Nodup)
    (w : World) (g : Group)
    (hpend : ∀ t ∈ g.pending, ∀ q ∈ ps, "/tmp/" ++ b.opts.Release ++ "/" ++ q ≠ t.2)
    (q : String) (hq : ∀ t ∈ g.pending, q ≠ t.2)
    (hqc : ∀ p ∈ ps, utilsExists w ("/tmp/" ++ b.opts.Release ++ "/" ++ p) = false →
      q ≠ "/tmp/" ++ b.opts.Release ++ "/" ++ p) :
    (downloadLoop os b ps w g).1.fs.files q = w.fs.files q := by
  induction ps generalizing w g with
  | nil => exact (waitAll_frame os g.pending.length w g).2.2 q hq
  | cons p ps ih =>
    have hp : p ∉ ps := (List.nodup_cons.mp hnd).1
    have hps : ps.Nodup := (List.nodup_cons.mp hnd).2
    have hs := schedule_frame os w g
    have hsame : ∀ r ∈ p :: ps,
        utilsExists (schedule os w g).1 ("/tmp/" ++ b.opts.Release ++ "/" ++ r) =
          utilsExists w ("/tmp/" ++ b.opts.Release ++ "/" ++ r) :=
      fun r hr => schedule_exists os w g _ (fun t ht => hpend t ht r hr)
    have hpend1 : ∀ t ∈ (schedule os w g).2.pending, ∀ r ∈ ps,
        "/tmp/" ++ b.opts.Release ++ "/" ++ r ≠ t.2 :=
      fun t ht r hr => hpend t (hs.2.2.2 t ht) r (List.mem_cons_of_mem _ hr)
    have hq1 : ∀ t ∈ (schedule os w g).2.pending, q ≠ t.2 :=
      fun t ht => hq t (hs.2.2.2 t ht)
    have hqc1 : ∀ r ∈ ps,
        utilsExists (schedule os w g).1 ("/tmp/" ++ b.opts.Release ++ "/" ++ r) = false →
        q ≠ "/tmp/" ++ b.opts.Release ++ "/" ++ r :=
      fun r hr hex => hqc r (List.mem_cons_of_mem _ hr)
        (by rw [← hsame r (List.mem_cons_of_mem _ hr)]; exact hex)
    simp only [downloadLoop]
    rw [hsame p (List.mem_cons_self _ _)]
    by_cases hex : utilsExists w ("/tmp/" ++ b.opts.Release ++ "/" ++ p) = true
    · simp only [hex, if_true]
      rw [ih hps _ _ hpend1 hq1 hqc1, hs.2.2.1 q hq]
    · have hex0 : utilsExists w ("/tmp/" ++ b.opts.Release ++ "/" ++ p) = false := by
        simpa using hex
      simp only [hex0, Bool.false_eq_true, if_false]
      rw [ih hps]
      · exact hs.2.2.1 q hq
      · intro t ht r hr
        rcases List.mem_append.mp ht with h | h
        · exact hpend1 t h r hr
        · simp only [List.mem_singleton] at h
          subst h
          intro heq
          rw [cache_path_inj] at heq
          exact hp (heq ▸ hr)
      · intro t ht
        rcases List.mem_append.mp ht with h | h
        · exact hq1 t h
        · simp only [List.mem_singleton] at h
          subst h
          exact hqc p (List.mem_cons_self _ _) hex0
      · exact hqc1

/-- When the loop and `g.Wait()` return nil, every task that was pending and
the task of every package whose cache file was missing have fetched their URL
into their file. -/
theorem downloadLoop_fetched (os : OS) (b : Builder) (ps : List String) (hnd : ps.Nodup)
    (w : World) (g : Group)
    (hpend : ∀ t ∈ g.pending, ∀ q ∈ ps, "/tmp/" ++ b.opts.Release ++ "/" ++ q ≠ t.2)
    (hgn : (g.pending.map Prod.snd).Nodup)
    (hnil : (downloadLoop os b ps w g).2 = none) :
    g.err = none ∧
    (∀ t ∈ g.pending, Fetched os t.1 t.2 (downloadLoop os b ps w g).1) ∧
    ∀ p ∈ ps, utilsExists w ("/tmp/" ++ b.opts.Release ++ "/" ++ p) = false →
      Fetched os (sysDownloadURL b.opts.Release p) ("/tmp/" ++ b.opts.Release ++ "/" ++ p)
        (downloadLoop os b ps w g).1 := by
  induction ps generalizing w g with
  | nil =>
    obtain ⟨h1, h2⟩ := waitAll_fetched os g.pending.length w g hgn hnil
    exact ⟨h1, h2, fun p hp => by cases hp⟩
  | cons p ps ih =>
    have hp : p ∉ ps := (List.nodup_cons.mp hnd).1
    have hps : ps.Nodup := (List.nodup_cons.mp hnd).2
    have hs := schedule_frame os w g
    obtain ⟨hnd1, hsp⟩ := schedule_fetched os w g hgn
    have hsame : ∀ r ∈ p :: ps,
        utilsExists (schedule os w g).1 ("/tmp/" ++ b.opts.Release ++ "/" ++ r) =
          utilsExists w ("/tmp/" ++ b.opts.Release ++ "/" ++ r) :=
      fun r hr => schedule_exists os w g _ (fun t ht => hpend t ht r hr)
    have hpend1 : ∀ t ∈ (schedule os w g).2.pending, ∀ r ∈ ps,
        "/tmp/" ++ b.opts.Release ++ "/" ++ r ≠ t.2 :=
      fun t ht r hr => hpend t (hs.2.2.2 t ht) r (List.mem_cons_of_mem _ hr)
    simp only [downloadLoop] at hnil ⊢
    rw [hsame p (List.mem_cons_self _ _)] at hnil ⊢
    by_cases hex : utilsExists w ("/tmp/" ++ b.opts.Release ++ "/" ++ p) = true
    · simp only [hex, if_true] at hnil ⊢
      obtain ⟨herr, hall, hmiss⟩ := ih hps _ _ hpend1 hnd1 hnil
      obtain ⟨hg, hrun⟩ := hsp herr
      refine ⟨hg, fun t ht => ?_, fun r hr hrex => ?_⟩
      · rcases hrun t ht with h | ⟨hf, hne⟩
        · exact hall t h
        · refine Fetched_of_files_eq os t.1 t.2 _ _ ?_ hf
          exact downloadLoop_frame os b ps hps _ _ hpend1 t.2 hne
            (fun r hr _ => (hpend t ht r (List.mem_cons_of_mem _ hr)).symm)
      · rcases List.mem_cons.mp hr with h | h
        · rw [h, hex] at hrex
          cases hrex
        · exact hmiss r h (by rw [hsame r hr]; exact hrex)
    · have hex0 : utilsExists w ("/tmp/" ++ b.opts.Release ++ "/" ++ p) = false := by
        simpa using hex
      simp only [hex0, Bool.false_eq_true, if_false] at hnil ⊢
      have hpend2 : ∀ t ∈ (schedule os w g).2.pending ++
          [(sysDownloadURL b.opts.Release p, "/tmp/" ++ b.opts.Release ++ "/" ++ p)],
          ∀ r ∈ ps, "/tmp/" ++ b.opts.Release ++ "/" ++ r ≠ t.2 := by
        intro t ht r hr
        rcases List.mem_append.mp ht with h | h
        · exact hpend1 t h r hr
        · simp only [List.mem_singleton] at h
          subst h
          intro heq
          rw [cache_path_inj] at heq
          exact hp (heq ▸ hr)
      have hnd2 : (((schedule os w g).2.pending ++
          [(sysDownloadURL b.opts.Release p, "/tmp/" ++ b.opts.Release ++ "/" ++ p)]).map
            Prod.snd).Nodup := by
        rw [List.map_append, List.nodup_append]
        refine ⟨hnd1, by simp, ?_⟩
        intro x hx hx2
        simp only [List.map_cons, List.map_nil, List.mem_singleton] at hx2
        obtain ⟨t, ht, rfl⟩ := List.mem_map.mp hx
        exact hpend t (hs.2.2.2 t ht) p (List.mem_cons_self _ _) hx2.symm
      obtain ⟨herr, hall, hmiss⟩ := ih hps _ _ hpend2 hnd2 hnil
      obtain ⟨hg, hrun⟩ := hsp herr
      refine ⟨hg, fun t ht => ?_, fun r hr hrex => ?_⟩
      · rcases hrun t ht with h | ⟨hf, hne⟩
        · exact hall t (List.mem_append_left _ h)
        · have hf1 : Fetched os t.1 t.2
              { fs := (schedule os w g).1.fs,
                log := (schedule os w g).1.log ++ [Event.go (sysDownloadURL b.opts.Release p)
                  ("/tmp/" ++ b.opts.Release ++ "/" ++ p)] } :=
            Fetched_of_files_eq os t.1 t.2 _ _ rfl hf
          refine Fetched_of_files_eq os t.1 t.2 _ _ ?_ hf1
          apply downloadLoop_frame os b ps hps _ _ hpend2 t.2
          · intro u hu
            rcases List.mem_append.mp hu with h | h
            · exact hne u h
            · simp only [List.mem_singleton] at h
              subst h
              exact (hpend t ht p (List.mem_cons_self _ _)).symm
          · exact fun r hr _ => (hpend t ht r (List.mem_cons_of_mem _ hr)).symm
      · rcases List.mem_cons.mp hr with h | h
        · subst h
          exact hall _ (List.mem_append_right _ (List.mem_singleton.mpr rfl))
        · exact hmiss r h (by
            have := hsame r hr
            simpa [utilsExists] using this.trans hrex)

theorem mkdir_exists_cache (w : World) (r p : String) :
    utilsExists
      { w with fs := { w.fs with dirs := fun q => if q = "/tmp/" ++ r then true else w.fs.dirs q } }
      ("/tmp/" ++ r ++ "/" ++ p) = utilsExists w ("/tmp/" ++ r ++ "/" ++ p) := by
  simp [utilsExists, cache_path_ne_dir]

/-- C7: when the cache directory /tmp/Release exists or can be created,
`DownloadBaseSystem` launches one download task for each of the packages
base.txz, lib32.txz, ports.txz whose cache file /tmp/Release/package does not
exist, and for no other (so as many tasks as packages are missing), each for
the URL of the package and its cache file; when the three cache files exist
it launches no task, changes no file and returns nil.  The tasks do what
their labels say: when the call returns nil, the cache file of every package
that was missing holds a body the server answered to the request for the URL
of that package; and the cache file of a package that was there is never
touched. -/
theorem DownloadBaseSystem_launches_missing (os : OS) (b : Builder) (w : World)
    (hdir : utilsExists w ("/tmp/" ++ b.opts.Release) = true ∨
      os.Mkdir w ("/tmp/" ++ b.opts.Release) = none) :
    (b.DownloadBaseSystem os w).1.log = w.log ++
      ((["base.txz", "lib32.txz", "ports.txz"].filter fun p =>
          !utilsExists w ("/tmp/" ++ b.opts.Release ++ "/" ++ p)).map fun p =>
        Event.go
          ("http://ftp.freebsd.org/pub/FreeBSD/releases/amd64/amd64/" ++ b.opts.Release ++ "/" ++ p)
          ("/tmp/" ++ b.opts.Release ++ "/" ++ p)) ∧
    (b.DownloadBaseSystem os w).1.log.length = w.log.length +
      (["base.txz", "lib32.txz", "ports.txz"].filter fun p =>
          !utilsExists w ("/tmp/" ++ b.opts.Release ++ "/" ++ p)).length ∧
    ((∀ p ∈ ["base.txz", "lib32.txz", "ports.txz"],
        utilsExists w ("/tmp/" ++ b.opts.Release ++ "/" ++ p) = true) →
      (b.DownloadBaseSystem os w).1.log = w.log ∧
      (b.DownloadBaseSystem os w).1.fs.files = w.fs.files ∧
      (b.DownloadBaseSystem os w).2 = none) ∧
    ((b.DownloadBaseSystem os w).2 = none →
      ∀ p ∈ ["base.txz", "lib32.txz", "ports.txz"],
        utilsExists w ("/tmp/" ++ b.opts.Release ++ "/" ++ p) = false →
        ∃ w1 body,
          os.Do w1 ("http://ftp.freebsd.org/pub/FreeBSD/releases/amd64/amd64/" ++
            b.opts.Release ++ "/" ++ p) = .ok body ∧
          (b.DownloadBaseSystem os w).1.fs.files ("/tmp/" ++ b.opts.Release ++ "/" ++ p)
            = some body) ∧
    (∀ p ∈ ["base.txz", "lib32.txz", "ports.txz"],
      utilsExists w ("/tmp/" ++ b.opts.Release ++ "/" ++ p) = true →
      (b.DownloadBaseSystem os w).1.fs.files ("/tmp/" ++ b.opts.Release ++ "/" ++ p)
        = w.fs.files ("/tmp/" ++ b.opts.Release ++ "/" ++ p)) := by
  have hnd : basePackages.Nodup := by decide
  have hlog : (b.DownloadBaseSystem os w).1.log = w.log ++
      ((basePackages.filter fun p =>
          !utilsExists w ("/tmp/" ++ b.opts.Release ++ "/" ++ p)).map fun p =>
        Event.go (sysDownloadURL b.opts.Release p) ("/tmp/" ++ b.opts.Release ++ "/" ++ p)) := by
    unfold Builder.DownloadBaseSystem
    by_cases hex : utilsExists w ("/tmp/" ++ b.opts.Release) = true
    · simp only [hex, if_true]
      exact downloadLoop_log os b basePackages hnd w _ (by simp)
    · have hmk : os.Mkdir w ("/tmp/" ++ b.opts.Release) = none := hdir.resolve_left hex
      have hex0 : utilsExists w ("/tmp/" ++ b.opts.Release) = false := by simpa using hex
      simp only [hex0, Bool.false_eq_true, if_false, osMkdir, hmk]
      rw [downloadLoop_log os b basePackages hnd _ _ (by simp)]
      simp only [mkdir_exists_cache]
  refine ⟨hlog, ?_, ?_, ?_, ?_⟩
  · rw [hlog]
    simp [basePackages]
  · intro hall
    unfold Builder.DownloadBaseSystem
    by_cases hex : utilsExists w ("/tmp/" ++ b.opts.Release) = true
    · simp only [hex, if_true]
      rw [downloadLoop_all_cached os b basePackages w hall]
      exact ⟨rfl, rfl, rfl⟩
    · have hmk : os.Mkdir w ("/tmp/" ++ b.opts.Release) = none := hdir.resolve_left hex
      have hex0 : utilsExists w ("/tmp/" ++ b.opts.Release) = false := by simpa using hex
      simp only [hex0, Bool.false_eq_true, if_false, osMkdir, hmk]
      rw [downloadLoop_all_cached os b basePackages _
        (fun p hp => by rw [mkdir_exists_cache]; exact hall p hp)]
      exact ⟨rfl, rfl, rfl⟩
  · unfold Builder.DownloadBaseSystem
    by_cases hex : utilsExists w ("/tmp/" ++ b.opts.Release) = true
    · simp only [hex, if_true]
      intro hnil p hp hmiss
      exact (downloadLoop_fetched os b basePackages hnd w _ (by simp) (by simp) hnil).2.2
        p hp hmiss
    · have hmk : os.Mkdir w ("/tmp/" ++ b.opts.Release) = none := hdir.resolve_left hex
      have hex0 : utilsExists w ("/tmp/" ++ b.opts.Release) = false := by simpa using hex
      simp only [hex0, Bool.false_eq_true, if_false, osMkdir, hmk]
      intro hnil p hp hmiss
      exact (downloadLoop_fetched os b basePackages hnd _ _ (by simp) (by simp) hnil).2.2
        p hp (by rw [mkdir_exists_cache]; exact hmiss)
  · intro p hp hthere
    unfold Builder.DownloadBaseSystem
    by_cases hex : utilsExists w ("/tmp/" ++ b.opts.Release) = true
    · simp only [hex, if_true]
      apply downloadLoop_frame os b basePackages hnd w _ (by simp) _ (by simp)
      intro r _ hr heq
      rw [← heq, hthere] at hr
      cases hr
    · have hmk : os.Mkdir w ("/tmp/" ++ b.opts.Release) = none := hdir.resolve_left hex
      have hex0 : utilsExists w ("/tmp/" ++ b.opts.Release) = false := by simpa using hex
      simp only [hex0, Bool.false_eq_true, if_false, osMkdir, hmk]
      rw [downloadLoop_frame os b basePackages hnd _ _ (by simp) _ (by simp)]
      intro r _ hr heq
      rw [mkdir_exists_cache, ← heq, hthere] at hr
      cases hr

/-- Witness for C7: on the sample host nothing is cached and /tmp/11.0-RELEASE
can be created; the three tasks are launched, in the order of the packages,
the call returns nil and each cache file holds the body the server sent. -/
theorem DownloadBaseSystem_launches_missing_witness :
    (sampleBuilder.DownloadBaseSystem okOS hostWorld).1.log =
      [Event.go "http://ftp.freebsd.org/pub/FreeBSD/releases/amd64/amd64/11.0-RELEASE/base.txz"
         "/tmp/11.0-RELEASE/base.txz",
       Event.go "http://ftp.freebsd.org/pub/FreeBSD/releases/amd64/amd64/11.0-RELEASE/lib32.txz"
         "/tmp/11.0-RELEASE/lib32.txz",
       Event.go "http://ftp.freebsd.org/pub/FreeBSD/releases/amd64/amd64/11.0-RELEASE/ports.txz"
         "/tmp/11.0-RELEASE/ports.txz"] ∧
    (∃ w1 body,
      okOS.Do w1 "http://ftp.freebsd.org/pub/FreeBSD/releases/amd64/amd64/11.0-RELEASE/ports.txz"
        = .ok body ∧
      (sampleBuilder.DownloadBaseSystem okOS hostWorld).1.fs.files "/tmp/11.0-RELEASE/ports.txz"
        = some body) ∧
    (sampleBuilder.DownloadBaseSystem okOS hostWorld).1.fs.files "/tmp/11.0-RELEASE/base.txz"
      = some "txz" ∧
    (sampleBuilder.DownloadBaseSystem okOS hostWorld).1.fs.files "/tmp/11.0-RELEASE/lib32.txz"
      = some "txz" ∧
    (sampleBuilder.DownloadBaseSystem okOS hostWorld).1.fs.files "/tmp/11.0-RELEASE/ports.txz"
      = some "txz" :=
  ⟨(DownloadBaseSystem_launches_missing okOS sampleBuilder hostWorld (Or.inr rfl)).1.trans
      (by decide),
    (DownloadBaseSystem_launches_missing okOS sampleBuilder hostWorld (Or.inr rfl)).2.2.2.1
      (by decide) "ports.txz" (by decide) (by decide),
    by decide, by decide, by decide⟩

/-! ## The pipeline -/

theorem stepResult_zero (s : World → World × Option Error)
    (rest : List (World → World × Option Error)) (w : World) :
    stepResult (s :: rest) w 0 = s w := rfl

theorem stepResult_succ (s : World → World × Option Error)
    (rest : List (World → World × Option Error)) (w : World) (k : Nat) :
    stepResult (s :: rest) w (k + 1) = stepResult rest (s w).1 k := by
  simp only [stepResult, List.get?_cons_succ, List.take_succ_cons, runAll]

/-- In a fail-fast pipeline, the first step that fails decides the result. -/
theorem runSteps_first_failure (steps : List (World → World × Option Error)) (w : World)
    (k : Nat) (hk : k < steps.length)
    (hprev : ∀ j < k, (stepResult steps w j).2 = none)
    (hfail : (stepResult steps w k).2 ≠ none) :
    runSteps steps w = stepResult steps w k := by
  induction steps generalizing w k with
  | nil => simp at hk
  | cons s rest ih =>
    cases k with
    | zero =>
      rw [stepResult_zero] at hfail ⊢
      simp only [runSteps]
      rcases hs : s w with ⟨w1, _ | err⟩
      · rw [hs] at hfail
        exact absurd rfl hfail
      · rfl
    | succ k =>
      have h0 : (s w).2 = none := by
        have := hprev 0 (Nat.succ_pos k)
        rwa [stepResult_zero] at this
      rw [stepResult_succ] at hfail ⊢
      have hrun : runSteps (s :: rest) w = runSteps rest (s w).1 := by
        simp only [runSteps]
        rcases hs : s w with ⟨w1, _ | err⟩
        · rfl
        · rw [hs] at h0
          cases h0
      rw [hrun]
      apply ih (s w).1 k (by simpa using hk) _ hfail
      intro j hj
      have := hprev (j + 1) (Nat.succ_lt_succ hj)
      rwa [stepResult_succ] at this

/-- A fail-fast pipeline returns nil exactly when every step returns nil, and
then every step has run. -/
theorem runSteps_nil_iff (steps : List (World → World × Option Error)) (w : World) :
    ((runSteps steps w).2 = none ↔ ∀ j < steps.length, (stepResult steps w j).2 = none) ∧
    ((runSteps steps w).2 = none → (runSteps steps w).1 = runAll steps w) := by
  induction steps generalizing w with
  | nil => simp [runSteps, runAll]
  | cons s rest ih =>
    simp only [runSteps, runAll]
    rcases hs : s w with ⟨w1, _ | err⟩
    · have hw1 : (s w).1 = w1 := by rw [hs]
      simp only []
      refine ⟨?_, (ih w1).2⟩
      rw [(ih w1).1]
      constructor
      · intro h j hj
        cases j with
        | zero => rw [stepResult_zero, hs]
        | succ j =>
          rw [stepResult_succ, hw1]
          exact h j (by simpa using hj)
      · intro h j hj
        have := h (j + 1) (by simpa using hj)
        rwa [stepResult_succ, hw1] at this
    · simp only []
      refine ⟨⟨fun h => (by cases h), fun h => ?_⟩, fun h => (by cases h)⟩
      have := h 0 (by simp)
      rw [stepResult_zero, hs] at this
      cases this

theorem Initialize_eq_runSteps (os : OS) (b : Builder) (w : World) :
    b.Initialize os w = runSteps (b.steps os) w := by
  simp only [Builder.Initialize, Builder.steps, runSteps]
  rcases b.CreateZFSDataset w with ⟨w1, _ | e⟩ <;> simp only []
  rcases b.DownloadBaseSystem os w1 with ⟨w2, _ | e⟩ <;> simp only []
  rcases b.ExtractBasePkgs os w2 with ⟨w3, _ | e⟩ <;> simp only []
  rcases b.UpdateBaseJail os w3 with ⟨w4, _ | e⟩ <;> simp only []
  rcases b.SetBaseJailConf os w4 with ⟨w5, _ | e⟩ <;> simp only []
  rcases b.CreateZFSSnapshot w5 with ⟨w6, _ | e⟩ <;> simp only []
  rcases b.CreateJail os "base" w6 with ⟨w7, _ | e⟩ <;> rfl

theorem AddsZfs_of_log_eq (w w1 : World) (h : w1.log = w.log) : AddsZfs w w1 [] :=
  ⟨[], by simp [h], rfl⟩

theorem AddsZfs_trans (w w1 w2 : World) (a c : List Event)
    (h1 : AddsZfs w w1 a) (h2 : AddsZfs w1 w2 c) : AddsZfs w w2 (a ++ c) := by
  obtain ⟨e1, hl1, hf1⟩ := h1
  obtain ⟨e2, hl2, hf2⟩ := h2
  exact ⟨e1 ++ e2, by rw [hl2, hl1, List.append_assoc], by rw [List.filter_append, hf1, hf2]⟩

theorem CreateZFSDataset_adds (b : Builder) (w : World) :
    AddsZfs w (b.CreateZFSDataset w).1
      [Event.exec ["zfs", "create", "-p", b.opts.Dataset ++ "/jails/releases/" ++ b.opts.Release]
        (b.CreateZFSDataset w).2] :=
  ⟨_, (zfs_commands_log b "" w).1, rfl⟩

theorem CreateZFSSnapshot_adds (b : Builder) (w : World) :
    AddsZfs w (b.CreateZFSSnapshot w).1
      [Event.exec ["zfs", "snapshot",
        b.opts.Dataset ++ "/jails/releases/" ++ b.opts.Release ++ "@p1"]
        (b.CreateZFSSnapshot w).2] :=
  ⟨_, (zfs_commands_log b "" w).2.1, rfl⟩

theorem DownloadBaseSystem_adds (os : OS) (b : Builder) (w : World) :
    AddsZfs w (b.DownloadBaseSystem os w).1 [] := by
  have hnd : basePackages.Nodup := by decide
  have hloop : ∀ w0 : World,
      AddsZfs w0 (downloadLoop os b basePackages w0 { pending := [], err := none }).1 [] := by
    intro w0
    refine ⟨_, downloadLoop_log os b basePackages hnd w0 _ (by simp), ?_⟩
    rw [List.filter_eq_nil_iff]
    intro e he
    simp only [List.mem_map] at he
    obtain ⟨p, _, rfl⟩ := he
    simp [isZfs]
  unfold Builder.DownloadBaseSystem
  by_cases hex : utilsExists w ("/tmp/" ++ b.opts.Release) = true
  · simp only [hex, if_true]
    exact hloop w
  · have hex0 : utilsExists w ("/tmp/" ++ b.opts.Release) = false := by simpa using hex
    simp only [hex0, Bool.false_eq_true, if_false, osMkdir]
    cases os.Mkdir w ("/tmp/" ++ b.opts.Release) with
    | some err => exact AddsZfs_of_log_eq _ _ rfl
    | none => exact hloop _

theorem extractLoop_adds (os : OS) (b : Builder) (fullPath : String) (ps : List String)
    (w : World) : AddsZfs w (extractLoop os b fullPath ps w).1 [] := by
  induction ps generalizing w with
  | nil => exact AddsZfs_of_log_eq _ _ rfl
  | cons p ps ih =>
    simp only [extractLoop]
    rcases os.TarXZOpen w ("/tmp/" ++ b.opts.Release ++ "/" ++ p) fullPath with ⟨fs1, _ | err⟩ <;>
      simp only []
    · exact AddsZfs_trans _ _ _ [] [] ⟨[Event.untar _ _ _], rfl, rfl⟩ (ih _)
    · exact ⟨[Event.untar _ _ _], rfl, rfl⟩

theorem ExtractBasePkgs_adds (os : OS) (b : Builder) (w : World) :
    AddsZfs w (b.ExtractBasePkgs os w).1 [] :=
  extractLoop_adds os b _ basePackages w

theorem UpdateBaseJail_adds (os : OS) (b : Builder) (w : World) :
    AddsZfs w (b.UpdateBaseJail os w).1 [] := by
  have hz : ∀ e, [Event.exec b.UpdateBaseJailCmd e].filter isZfs = [] := by
    intro e
    simp [Builder.UpdateBaseJailCmd, isZfs]
  simp only [Builder.UpdateBaseJail]
  cases os.Start w b.UpdateBaseJailCmd with
  | some err => exact ⟨_, rfl, hz _⟩
  | none => exact ⟨_, rfl, hz _⟩

theorem SetBaseJailConf_adds (os : OS) (b : Builder) (w : World) :
    AddsZfs w (b.SetBaseJailConf os w).1 [] := by
  apply AddsZfs_of_log_eq
  simp only [Builder.SetBaseJailConf, SetResolvConf_some, writeNameservers]
  cases os.Create w (b.opts.BaseDir ++ "/releases/" ++ b.opts.Release ++ "/etc/resolv.conf") <;> rfl

theorem CreateJail_adds (os : OS) (b : Builder) (name : String) (w : World) :
    ∃ err, AddsZfs w (b.CreateJail os name w).1
      [Event.exec ["zfs", "clone",
        "/" ++ b.opts.Dataset ++ "/jails/releases/" ++ b.opts.Release ++ "@p1",
        "/zroot/jails/" ++ name] err] := by
  have hlog := (zfs_commands_log b name w).2.2
  refine ⟨(b.CloneBaseToJail name w).2,
    [Event.exec ["zfs", "clone",
      "/" ++ b.opts.Dataset ++ "/jails/releases/" ++ b.opts.Release ++ "@p1",
      "/zroot/jails/" ++ name] (b.CloneBaseToJail name w).2], ?_, rfl⟩
  rw [← hlog]
  simp only [Builder.CreateJail, osCreate, fileWrite]
  rcases b.CloneBaseToJail name w with ⟨w1, _ | e1⟩
  · simp only []
    cases os.Create w1 (b.opts.BaseDir ++ "/" ++ name ++ rcConf) with
    | some e2 => rfl
    | none =>
      simp only []
      cases os.Write { w1 with fs := (w1.fs.put (b.opts.BaseDir ++ "/" ++ name ++ rcConf) "") }
          (b.opts.BaseDir ++ "/" ++ name ++ rcConf) ("hostname=\"" ++ name ++ "\"") <;> rfl
  · rfl

/-- The runs of zfs that `Initialize` adds to the log are: the create command;
after it, and only when it has succeeded, possibly the snapshot command; after
that, and only when it has succeeded, the clone command for the jail base. -/
theorem Initialize_zfs_commands (os : OS) (b : Builder) (w : World) :
    (∃ e1, AddsZfs w (b.Initialize os w).1
      [Event.exec ["zfs", "create", "-p", b.opts.Dataset ++ "/jails/releases/" ++ b.opts.Release]
        e1]) ∨
    (∃ e6, AddsZfs w (b.Initialize os w).1
      [Event.exec ["zfs", "create", "-p", b.opts.Dataset ++ "/jails/releases/" ++ b.opts.Release]
        none,
       Event.exec ["zfs", "snapshot",
        b.opts.Dataset ++ "/jails/releases/" ++ b.opts.Release ++ "@p1"] e6]) ∨
    (∃ e7, AddsZfs w (b.Initialize os w).1
      [Event.exec ["zfs", "create", "-p", b.opts.Dataset ++ "/jails/releases/" ++ b.opts.Release]
        none,
       Event.exec ["zfs", "snapshot",
        b.opts.Dataset ++ "/jails/releases/" ++ b.opts.Release ++ "@p1"] none,
       Event.exec ["zfs", "clone",
        "/" ++ b.opts.Dataset ++ "/jails/releases/" ++ b.opts.Release ++ "@p1",
        "/zroot/jails/" ++ "base"] e7]) := by
  have h1 := CreateZFSDataset_adds b w
  unfold Builder.Initialize
  rcases hc1 : b.CreateZFSDataset w with ⟨w1, _ | e⟩ <;> rw [hc1] at h1 <;> simp only [] at h1 ⊢
  swap
  · exact Or.inl ⟨_, h1⟩
  have h2 := AddsZfs_trans _ _ _ _ _ h1 (DownloadBaseSystem_adds os b w1)
  rcases hc2 : b.DownloadBaseSystem os w1 with ⟨w2, _ | e⟩ <;> rw [hc2] at h2 <;>
    simp only [List.append_nil] at h2 ⊢
  swap
  · exact Or.inl ⟨_, h2⟩
  have h3 := AddsZfs_trans _ _ _ _ _ h2 (ExtractBasePkgs_adds os b w2)
  rcases hc3 : b.ExtractBasePkgs os w2 with ⟨w3, _ | e⟩ <;> rw [hc3] at h3 <;>
    simp only [List.append_nil] at h3 ⊢
  swap
  · exact Or.inl ⟨_, h3⟩
  have h4 := AddsZfs_trans _ _ _ _ _ h3 (UpdateBaseJail_adds os b w3)
  rcases hc4 : b.UpdateBaseJail os w3 with ⟨w4, _ | e⟩ <;> rw [hc4] at h4 <;>
    simp only [List.append_nil] at h4 ⊢
  swap
  · exact Or.inl ⟨_, h4⟩
  have h5 := AddsZfs_trans _ _ _ _ _ h4 (SetBaseJailConf_adds os b w4)
  rcases hc5 : b.SetBaseJailConf os w4 with ⟨w5, _ | e⟩ <;> rw [hc5] at h5 <;>
    simp only [List.append_nil] at h5 ⊢
  swap
  · exact Or.inl ⟨_, h5⟩
  have h6 := AddsZfs_trans _ _ _ _ _ h5 (CreateZFSSnapshot_adds b w5)
  rcases hc6 : b.CreateZFSSnapshot w5 with ⟨w6, _ | e⟩ <;> rw [hc6] at h6 <;>
    simp only [List.singleton_append] at h6 ⊢
  swap
  · exact Or.inr (Or.inl ⟨_, h6⟩)
  obtain ⟨e7, h7⟩ := CreateJail_adds os b "base" w6
  exact Or.inr (Or.inr ⟨e7, AddsZfs_trans _ _ _ _ _ h6 h7⟩)

/-- C5: `Initialize` runs the seven steps create dataset, download base
system, extract archives, patch, base environment configuration, snapshot,
create jail base, in this order and fail-fast.  If step `k` is the first to
return an error, `Initialize` returns what step `k` returns, run in the world
that the steps before it have left one after the other: its error unchanged,
and no later step has run.  It returns nil exactly when the seven steps return
nil, and then each has run once.  Of the storage commands, the snapshot
command is run only after the create command has succeeded, and the clone
command only after the snapshot command has succeeded. -/
theorem Initialize_fail_fast (os : OS) (b : Builder) (w : World) :
    (∀ k < 7, (∀ j < k, (stepResult (b.steps os) w j).2 = none) →
      (stepResult (b.steps os) w k).2 ≠ none →
      b.Initialize os w = stepResult (b.steps os) w k) ∧
    ((b.Initialize os w).2 = none ↔ ∀ j < 7, (stepResult (b.steps os) w j).2 = none) ∧
    ((b.Initialize os w).2 = none → (b.Initialize os w).1 = runAll (b.steps os) w) ∧
    ((∃ e1, AddsZfs w (b.Initialize os w).1
        [Event.exec ["zfs", "create", "-p",
          b.opts.Dataset ++ "/jails/releases/" ++ b.opts.Release] e1]) ∨
      (∃ e6, AddsZfs w (b.Initialize os w).1
        [Event.exec ["zfs", "create", "-p",
          b.opts.Dataset ++ "/jails/releases/" ++ b.opts.Release] none,
         Event.exec ["zfs", "snapshot",
          b.opts.Dataset ++ "/jails/releases/" ++ b.opts.Release ++ "@p1"] e6]) ∨
      (∃ e7, AddsZfs w (b.Initialize os w).1
        [Event.exec ["zfs", "create", "-p",
          b.opts.Dataset ++ "/jails/releases/" ++ b.opts.Release] none,
         Event.exec ["zfs", "snapshot",
          b.opts.Dataset ++ "/jails/releases/" ++ b.opts.Release ++ "@p1"] none,
         Event.exec ["zfs", "clone",
          "/" ++ b.opts.Dataset ++ "/jails/releases/" ++ b.opts.Release ++ "@p1",
          "/zroot/jails/" ++ "base"] e7])) := by
  have hlen : (b.steps os).length = 7 := rfl
  refine ⟨?_, ?_, ?_, Initialize_zfs_commands os b w⟩
  · intro k hk hprev hfail
    rw [Initialize_eq_runSteps]
    exact runSteps_first_failure _ w k (by rw [hlen]; exact hk) hprev hfail
  · rw [Initialize_eq_runSteps, (runSteps_nil_iff _ w).1, hlen]
  · rw [Initialize_eq_runSteps]
    exact (runSteps_nil_iff _ w).2

/-- Witness for C5: the patch command cannot be started.  `Initialize` returns
the error of the patch step (number 3, counted from 0); the only run of zfs
in the log is the successful create command: no snapshot, no clone. -/
theorem Initialize_fail_fast_witness :
    sampleBuilder.Initialize patchFailOS hostWorld =
      stepResult (sampleBuilder.steps patchFailOS) hostWorld 3 ∧
    (stepResult (sampleBuilder.steps patchFailOS) hostWorld 3).2 =
      some "exec: env: executable file not found" ∧
    (stepResult (sampleBuilder.steps patchFailOS) hostWorld 3).1.log.filter isZfs =
      [Event.exec ["zfs", "create", "-p", "zroot/jails/releases/11.0-RELEASE"] none] :=
  ⟨(Initialize_fail_fast patchFailOS sampleBuilder hostWorld).1 3 (by decide) (by decide)
    (by decide), by decide, by decide⟩

/-! ## Siblings of the misbehaving paths -/

theorem localtime_path_ne_host (b : Builder) :
    b.opts.BaseDir ++ "/releases/" ++ b.opts.Release ++ "/etc/localtime" ≠ "/etc/localtime" := by
  intro h
  have hl := congrArg String.length h
  simp only [String.length_append] at hl
  have h1 : "/releases/".length = 10 := by decide
  have h2 : "/etc/localtime".length = 14 := by decide
  omega

/-- When `SetLocaltime` returns nil, the localtime file of the base tree is a
copy of the one of the host.  (`SetBaseJailConf` does not call it.) -/
theorem SetLocaltime_copies_host (os : OS) (b : Builder) (w : World)
    (hnil : (b.SetLocaltime os w).2 = none) :
    (b.SetLocaltime os w).1.fs.files
      (b.opts.BaseDir ++ "/releases/" ++ b.opts.Release ++ "/etc/localtime")
      = w.fs.files "/etc/localtime" := by
  have hne := localtime_path_ne_host b
  revert hnil
  simp only [Builder.SetLocaltime, osCreate, ioCopy, ioCopyData, fileWrite]
  cases hop : osOpen os w "/etc/localtime" with
  | some err => intro h; cases h
  | none =>
    simp only []
    cases hcr : os.Create w
        (b.opts.BaseDir ++ "/releases/" ++ b.opts.Release ++ "/etc/localtime") with
    | some err => intro h; cases h
    | none =>
      simp only [put_files_other _ _ _ _ hne.symm]
      cases hhost : w.fs.files "/etc/localtime" with
      | none => intro h; cases h
      | some data =>
        simp only []
        cases hrd : os.Read { w with fs := (w.fs.put
            (b.opts.BaseDir ++ "/releases/" ++ b.opts.Release ++ "/etc/localtime") "") }
            "/etc/localtime" with
        | some err => intro h; cases h
        | none =>
          simp only []
          by_cases hd : data = ""
          · simp [hd, put_files_same]
          · simp only [hd, if_false]
            cases hwr : os.Write { w with fs := (w.fs.put
                (b.opts.BaseDir ++ "/releases/" ++ b.opts.Release ++ "/etc/localtime") "") }
                (b.opts.BaseDir ++ "/releases/" ++ b.opts.Release ++ "/etc/localtime") data with
            | some err => intro h; cases h
            | none =>
              intro _
              simp [put_files_same]

/-- Every archive `ExtractBasePkgs` extracts goes into BaseDir/releases/Release,
the directory that `UpdateBaseJail` puts into its command. -/
theorem ExtractBasePkgs_destination (os : OS) (b : Builder) (w : World) :
    ∃ evs, (b.ExtractBasePkgs os w).1.log = w.log ++ evs ∧
      ∀ e ∈ evs, ∃ src err,
        e = Event.untar src (b.opts.BaseDir ++ "/releases/" ++ b.opts.Release) err := by
  have hloop : ∀ (ps : List String) (w0 : World), ∃ evs,
      (extractLoop os b (b.opts.BaseDir ++ "/releases/" ++ b.opts.Release) ps w0).1.log
        = w0.log ++ evs ∧
      ∀ e ∈ evs, ∃ src err,
        e = Event.untar src (b.opts.BaseDir ++ "/releases/" ++ b.opts.Release) err := by
    intro ps
    induction ps with
    | nil => exact fun w0 => ⟨[], by simp [extractLoop], fun e he => by cases he⟩
    | cons p ps ih =>
      intro w0
      simp only [extractLoop]
      rcases os.TarXZOpen w0 ("/tmp/" ++ b.opts.Release ++ "/" ++ p)
          (b.opts.BaseDir ++ "/releases/" ++ b.opts.Release) with ⟨fs1, _ | err⟩ <;> simp only []
      · obtain ⟨evs, hlog, hall⟩ := ih
          { fs := fs1, log := w0.log ++ [Event.untar ("/tmp/" ++ b.opts.Release ++ "/" ++ p)
            (b.opts.BaseDir ++ "/releases/" ++ b.opts.Release) none] }
        refine ⟨Event.untar ("/tmp/" ++ b.opts.Release ++ "/" ++ p)
            (b.opts.BaseDir ++ "/releases/" ++ b.opts.Release) none :: evs, ?_, ?_⟩
        · rw [hlog]
          simp
        · intro e he
          rcases List.mem_cons.mp he with h | h
          · exact ⟨_, _, h⟩
          · exact hall e h
      · refine ⟨[Event.untar ("/tmp/" ++ b.opts.Release ++ "/" ++ p)
            (b.opts.BaseDir ++ "/releases/" ++ b.opts.Release) (some err)], rfl, ?_⟩
        intro e he
        exact ⟨_, _, List.mem_singleton.mp he⟩
  exact hloop basePackages w

end JailBuilder
